import Mathlib

/-!
Verification of the storage-and-collection subsystem of the `alan` repository:
the goal-based collector (`src/utils/goal_based_collector.py`), the knowledge
base (`src/knowledge_base/knowledge_base.py`) and the goal replay buffer
(`src/core/buffer.py`), shallowly embedded in Lean.

Components that the repository inherits from its RL library dependency
(the base Collector's `collect` wrapper, `ReplayBuffer._add_index`,
`ReplayBuffer.next`, `Collector.reset_env`) are not under `src/`; where a
claim depends on them they are modelled from the specification document, and
each such definition is marked `Modelled from the spec:` in its doc comment.
-/

namespace Alan

/-- Errors surfaced by the collection subsystem, following the spec taxonomy.
`invalidCollectionBudget` covers the `ValueError` raised when no budget is
configured (and the inherited guard for two budgets); `missingLatentState`
covers the two `RuntimeError`s raised when the policy output lacks
`latent_obs` or `latent_goal`; `unboundLocalError` models Python's
`UnboundLocalError`, raised when a local variable is read before any
assignment to it has executed. -/
inductive CollectError where
  | invalidCollectionBudget
  | missingLatentState
  | unboundLocalError
  deriving DecidableEq, Repr

/-- The collection mode selected by `GoalBasedCollector._collect` from the two
optional budgets `n_step` and `n_episode`. -/
inductive CollectMode where
  | stepMode (nStep : Nat)
  | episodeMode (nEpisode : Nat)
  deriving DecidableEq, Repr

/-- Modelled from the spec: the public `collect` entry point of the base
Collector class (inherited from the RL library, not under `src/`) rejects a
call that configures both budgets — "exactly one of two modes must be
configured, configuring the other is a contract violation (fails with
InvalidCollectionBudget)". -/
def collectEntryGuard (nStep nEpisode : Option Nat) : Except CollectError Unit :=
  match nStep, nEpisode with
  | some _, some _ => Except.error CollectError.invalidCollectionBudget
  | _, _ => Except.ok ()

/-- Budget dispatch at the top of `GoalBasedCollector._collect`
(goal_based_collector.py lines 123-128): `n_step` set selects step mode with
all `env_num` slots ready; otherwise a set `n_episode` selects episode mode
with `min(env_num, n_episode)` slots ready; neither set raises `ValueError`
("Either n_step or n_episode should be set."). -/
def collectModeSelect (envNum : Nat) (nStep nEpisode : Option Nat) :
    Except CollectError (CollectMode × List Nat) :=
  match nStep with
  | some n => Except.ok (CollectMode.stepMode n, List.range envNum)
  | none =>
    match nEpisode with
    | some n => Except.ok (CollectMode.episodeMode n, List.range (min envNum n))
    | none => Except.error CollectError.invalidCollectionBudget

/-- A collect call's budget handling: the inherited entry guard followed by
`_collect`'s own dispatch. -/
def collectBudgetCheck (envNum : Nat) (nStep nEpisode : Option Nat) :
    Except CollectError (CollectMode × List Nat) :=
  match collectEntryGuard nStep nEpisode with
  | Except.error e => Except.error e
  | Except.ok _ => collectModeSelect envNum nStep nEpisode

/-- The batched output of one call to `self.policy(obs_batch, hidden)` inside
`_compute_action_policy_hidden`: the action batch, the optional recurrent
state, the extra "policy" entry, and the two latent fields, each of which the
policy may omit (`act_batch_RA.get(..., None)` in the source). -/
structure PolicyOut (A H LO LG P : Type) where
  act : A
  state : Option H
  policyEntry : P
  latentObs : Option LO
  latentGoal : Option LG

/-- The local variables of `_compute_action_policy_hidden`, each `none` while
unassigned.  Python raises `UnboundLocalError` when a local is read before
assignment, which `readLocal` reproduces. -/
structure ComputeLocals (A H LO LG P : Type) where
  act : Option A := none
  actNormalized : Option A := none
  policyEntry : Option P := none
  hiddenState : Option (Option H) := none
  latentObs : Option LO := none
  latentGoal : Option LG := none

/-- Reading a Python local variable: an unassigned local raises
`UnboundLocalError`. -/
def readLocal {α : Type} : Option α → Except CollectError α
  | some a => Except.ok a
  | none => Except.error CollectError.unboundLocalError

/-- Shallow embedding of `GoalBasedCollector._compute_action_policy_hidden`
(goal_based_collector.py lines 38-105).  In random mode the action batch is
sampled from the per-slot action spaces (`sampleActs`) and mapped through
`map_action_inverse`; the locals `latent_obs_R` and `latent_goal_R` are never
assigned in that branch.  In policy mode the policy is called on the batched
observation; a missing `latent_obs` or (checked second) a missing
`latent_goal` raises `RuntimeError` (spec taxonomy: `missingLatentState`).
The final `return` statement reads all six locals, so an unassigned local
surfaces as `unboundLocalError` there.  Exploration noise is modelled off. -/
def computeActionPolicyHidden {A H LO LG P O : Type}
    (sampleActs : List Nat → A) (mapActionInverse : A → A) (mapAction : A → A)
    (emptyPolicy : P)
    (policyFn : O → Option H → PolicyOut A H LO LG P)
    (random : Bool) (readyEnvIds : List Nat) (lastObs : O)
    (lastHidden : Option H) :
    Except CollectError (A × A × P × Option H × LO × LG) := do
  let locals : ComputeLocals A H LO LG P ←
    if random then
      Except.ok
        ({ act := some (mapActionInverse (sampleActs readyEnvIds)),
           actNormalized := some (sampleActs readyEnvIds),
           policyEntry := some emptyPolicy,
           hiddenState := some none } : ComputeLocals A H LO LG P)
    else
      let out := policyFn lastObs lastHidden
      match out.latentObs with
      | none => Except.error CollectError.missingLatentState
      | some lo =>
        match out.latentGoal with
        | none => Except.error CollectError.missingLatentState
        | some lg =>
          Except.ok
            ({ act := some out.act,
               actNormalized := some (mapAction out.act),
               policyEntry := some out.policyEntry,
               hiddenState := some out.state,
               latentObs := some lo,
               latentGoal := some lg } : ComputeLocals A H LO LG P)
  let a ← readLocal locals.act
  let an ← readLocal locals.actNormalized
  let p ← readLocal locals.policyEntry
  let h ← readLocal locals.hiddenState
  let lo ← readLocal locals.latentObs
  let lg ← readLocal locals.latentGoal
  return (a, an, p, h, lo, lg)

/-- One collection-loop iteration of `_collect`, restricted to the part
relevant for error propagation: the action computation followed by the
environment step and the buffer write.  On success the written transition
batch (one abstract record per ready slot) is appended to the buffer; an
error from the action computation aborts the iteration before anything is
written. -/
def collectIterWrites {A H LO LG P O T : Type}
    (sampleActs : List Nat → A) (mapActionInverse : A → A) (mapAction : A → A)
    (emptyPolicy : P)
    (policyFn : O → Option H → PolicyOut A H LO LG P)
    (envStepWrite : List Nat → A → LO → LG → T)
    (random : Bool) (readyEnvIds : List Nat) (lastObs : O)
    (lastHidden : Option H) (buffer : List T) :
    Except CollectError (List T) := do
  let (_, an, _, _, lo, lg) ←
    computeActionPolicyHidden sampleActs mapActionInverse mapAction emptyPolicy
      policyFn random readyEnvIds lastObs lastHidden
  return buffer ++ [envStepWrite readyEnvIds an lo lg]

/-- Modelled from the spec: a Shard's index bookkeeping (spec section 4.1).
The underlying ring buffer lives in the RL library (not under `src/`): it keeps
a capacity `cap`, a write pointer `idx` that "always advances by exactly 1
modulo C per add", a valid count that saturates at `cap`, and running episode
accumulators (return-so-far `epRew`, length-so-far `epLen`, episode-start
local index `epStart`).  `closedEpisodes` is a ghost counter of how many times
the done-branch snapshot-and-reset has fired; it does not influence any other
field. -/
structure ShardCtr where
  cap : Nat
  idx : Nat
  size : Nat
  epRew : Int
  epLen : Nat
  epStart : Nat
  closedEpisodes : Nat
  deriving DecidableEq, Repr

/-- The quadruple returned by one shard add: the local write pointer and the
episode return / length / start-index bookkeeping. -/
structure ShardAddRet where
  ptr : Nat
  epRew : Int
  epLen : Nat
  epIdx : Nat
  deriving DecidableEq, Repr

/-- A fresh shard counter of capacity `cap`. -/
def shardCtrInit (cap : Nat) : ShardCtr :=
  { cap := cap, idx := 0, size := 0, epRew := 0, epLen := 0, epStart := 0,
    closedEpisodes := 0 }

/-- Modelled from the spec: one `Shard.add` index step (spec section 4.1,
`ReplayBuffer._add_index` in the RL library, not under `src/`): it "writes
fields at w, advances episode accumulators by the transition's reward and
step count, advances w and valid-count, and — if the transition's done flag
is set — snapshots and resets the episode accumulators, returning the
completed episode's totals; otherwise returns the in-progress totals". -/
def shardAddIndex (s : ShardCtr) (rew : Int) (done : Bool) :
    ShardCtr × ShardAddRet :=
  let ptr := s.idx
  let idx' := (s.idx + 1) % s.cap
  let size' := min (s.size + 1) s.cap
  let epRew' := s.epRew + rew
  let epLen' := s.epLen + 1
  if done then
    ({ cap := s.cap, idx := idx', size := size', epRew := 0, epLen := 0,
       epStart := idx', closedEpisodes := s.closedEpisodes + 1 },
     { ptr := ptr, epRew := epRew', epLen := epLen', epIdx := s.epStart })
  else
    ({ cap := s.cap, idx := idx', size := size', epRew := epRew',
       epLen := epLen', epStart := s.epStart,
       closedEpisodes := s.closedEpisodes },
     { ptr := ptr, epRew := epRew', epLen := epLen', epIdx := s.epStart })

/-- Result of one deterministic environment step (`env.step` on one slot). -/
structure StepResult (E O I : Type) where
  env : E
  obs : O
  info : I
  rew : Int
  terminated : Bool
  truncated : Bool

/-- Result of one deterministic environment reset (`env.reset` on one slot). -/
structure ResetResult (E O I : Type) where
  env : E
  obs : O
  info : I

/-- One deterministic, contract-satisfying policy evaluation on one slot:
the action, the next recurrent hidden state (`none` is the no-state
sentinel), and the two latent fields, which this model assumes present (the
contract-violation path is modelled by `computeActionPolicyHidden`). -/
structure PolicyStep (A H LO LG : Type) where
  act : A
  state : Option H
  latentObs : LO
  latentGoal : LG

/-- A deterministic world for the collection loop: `numEnvs` parallel
environment slots, the per-shard buffer capacity (all shards of the
vectorized buffer have the same size), a deterministic per-slot environment
step and reset, and a deterministic per-slot policy.  The batched policy and
environment calls of the source act row-wise on the batch, which this model
expresses as per-slot functions. -/
structure World (E O I A H LO LG : Type) where
  numEnvs : Nat
  shardCap : Nat
  envStep : Nat → E → A → StepResult E O I
  envReset : Nat → ResetResult E O I
  policy : O → Option H → PolicyStep A H LO LG
  mapAction : A → A

/-- One transition record written to the buffer
(`current_iteration_batch` row for one ready slot). -/
structure Transition (O I A LO LG : Type) where
  slot : Nat
  obs : O
  act : A
  obsNext : O
  latentObs : LO
  latentGoal : LG
  rew : Int
  terminated : Bool
  truncated : Bool
  done : Bool
  info : I

/-- The part of the collection-loop state that persists across iterations and
across step-count-mode calls: the ready slot ids, the per-slot environment
states, the per-slot last observation / info / hidden state, the per-slot
shard counters of the buffer, and the flat sequence of written transitions.
The source keeps `last_obs_RO` etc. as arrays aligned with
`ready_env_ids_R`; this model keeps full per-slot arrays of which only the
ready entries are ever read, which is equivalent because entries of removed
slots are never consulted again within a call. -/
structure CoreState (E O I A H LO LG : Type) where
  readyIds : List Nat
  envs : Nat → E
  lastObs : Nat → O
  lastInfo : Nat → I
  lastHidden : Nat → Option H
  shards : Nat → ShardCtr
  writes : List (Transition O I A LO LG)

/-- The full state of one `while` iteration of `_collect`: the core plus the
per-call counters and episode statistics lists. -/
structure LoopState (E O I A H LO LG : Type) where
  core : CoreState E O I A H LO LG
  stepCount : Nat
  collectedEpisodes : Nat
  episodeReturns : List Int
  episodeLens : List Nat
  episodeStartIdxs : List Nat

/-- Everything produced for one ready slot during one iteration: the policy
evaluation, the environment step, the transition to be written, and the shard
bookkeeping returned by the buffer add. -/
structure IterRow (E O I A H LO LG : Type) where
  slot : Nat
  tr : Transition O I A LO LG
  envAfter : E
  hiddenAfter : Option H
  shardAfter : ShardCtr
  ret : ShardAddRet
  done : Bool

/-- Process one ready slot of one iteration: evaluate the policy on the
slot's last observation and hidden state, step the slot's environment with
the mapped action, build the transition, and run the slot's shard add.  Each
ready slot writes into its own shard (`buffer_ids=ready_env_ids_R`), so the
per-slot shard adds are independent. -/
def doSlot {E O I A H LO LG : Type} (w : World E O I A H LO LG)
    (c : CoreState E O I A H LO LG) (i : Nat) : IterRow E O I A H LO LG :=
  let p := w.policy (c.lastObs i) (c.lastHidden i)
  let an := w.mapAction p.act
  let sr := w.envStep i (c.envs i) an
  let dn := sr.terminated || sr.truncated
  let sa := shardAddIndex (c.shards i) sr.rew dn
  { slot := i,
    tr := { slot := i, obs := c.lastObs i, act := p.act, obsNext := sr.obs,
            latentObs := p.latentObs, latentGoal := p.latentGoal,
            rew := sr.rew, terminated := sr.terminated,
            truncated := sr.truncated, done := dn, info := sr.info },
    envAfter := sr.env,
    hiddenAfter := p.state,
    shardAfter := sa.1,
    ret := sa.2,
    done := dn }

/-- Apply one slot's results to the core: advance the environment, the last
observation / info / hidden state, and the slot's shard counter. -/
def applyRow {E O I A H LO LG : Type} (c : CoreState E O I A H LO LG)
    (r : IterRow E O I A H LO LG) : CoreState E O I A H LO LG :=
  { c with
    envs := Function.update c.envs r.slot r.envAfter,
    lastObs := Function.update c.lastObs r.slot r.tr.obsNext,
    lastInfo := Function.update c.lastInfo r.slot r.tr.info,
    lastHidden := Function.update c.lastHidden r.slot r.hiddenAfter,
    shards := Function.update c.shards r.slot r.shardAfter }

/-- Episode-boundary handling for one slot whose done flag fired: reset that
environment, overwrite the slot's last observation and info with the reset
values, and reset the hidden state to the no-state sentinel. -/
def applyReset {E O I A H LO LG : Type} (w : World E O I A H LO LG)
    (c : CoreState E O I A H LO LG) (i : Nat) : CoreState E O I A H LO LG :=
  let rr := w.envReset i
  { c with
    envs := Function.update c.envs i rr.env,
    lastObs := Function.update c.lastObs i rr.obs,
    lastInfo := Function.update c.lastInfo i rr.info,
    lastHidden := Function.update c.lastHidden i none }

/-- The mode-independent part of one `while` iteration of `_collect`
(goal_based_collector.py lines 154-259): compute everything for every ready
slot from the pre-iteration state (the batched policy and environment calls
read only pre-iteration data), append the transition batch to the buffer,
apply the per-slot updates, and reset every slot whose episode ended. -/
structure IterOut (E O I A H LO LG : Type) where
  core : CoreState E O I A H LO LG
  rows : List (IterRow E O I A H LO LG)

/-- Run the mode-independent part of one iteration. -/
def iterOnce {E O I A H LO LG : Type} (w : World E O I A H LO LG)
    (c : CoreState E O I A H LO LG) : IterOut E O I A H LO LG :=
  let rows := c.readyIds.map (doSlot w c)
  let afterRows := rows.foldl applyRow c
  let afterWrites := { afterRows with writes := c.writes ++ rows.map (fun r => r.tr) }
  let doneRows := rows.filter (fun r => r.done)
  let afterResets := doneRows.foldl (fun cc r => applyReset w cc r.slot) afterWrites
  { core := afterResets, rows := rows }

/-- The core after one iteration. -/
def coreNext {E O I A H LO LG : Type} (w : World E O I A H LO LG)
    (c : CoreState E O I A H LO LG) : CoreState E O I A H LO LG :=
  (iterOnce w c).core

/-- The rows of the slots whose episode finished in this iteration, in
increasing local (= slot) order. -/
def iterDoneRows {E O I A H LO LG : Type} (w : World E O I A H LO LG)
    (c : CoreState E O I A H LO LG) : List (IterRow E O I A H LO LG) :=
  (iterOnce w c).rows.filter (fun r => r.done)

/-- The slot ids whose episode finished in this iteration
(`env_ind_global_D`). -/
def iterDoneIds {E O I A H LO LG : Type} (w : World E O I A H LO LG)
    (c : CoreState E O I A H LO LG) : List Nat :=
  (iterDoneRows w c).map (fun r => r.slot)

/-- One full `while` iteration of `_collect` in a given mode: the
mode-independent part, the statistics accumulation, and — in episode-count
mode only — the surplus-environment trimming of lines 274-296: with
`remaining = n_episode - num_collected_episodes` and
`surplus = len(ready_env_ids_R) - remaining` (computed over the integers, as
in Python), a positive surplus removes the first `surplus` entries of
`env_ind_local_D` from the ready set.  The source removes them by masking
local positions; since `ready_env_ids_R` starts as a range and is only ever
filtered, its entries are distinct and strictly increasing, so masking the
first `surplus` done positions is the same as filtering out the first
`surplus` done slot ids, which is how this model writes it. -/
def stepOnce {E O I A H LO LG : Type} (w : World E O I A H LO LG)
    (mode : CollectMode) (s : LoopState E O I A H LO LG) :
    LoopState E O I A H LO LG :=
  let out := iterOnce w s.core
  let doneRows := out.rows.filter (fun r => r.done)
  let d := doneRows.length
  let collected' := s.collectedEpisodes + d
  let core' :=
    match mode with
    | CollectMode.stepMode _ => out.core
    | CollectMode.episodeMode nEp =>
      if 0 < d then
        let remaining : Int := (nEp : Int) - (collected' : Int)
        let surplus : Int := (s.core.readyIds.length : Int) - remaining
        if 0 < surplus then
          let ignored := (doneRows.map (fun r => r.slot)).take surplus.toNat
          { out.core with
            readyIds := out.core.readyIds.filter (fun i => decide (i ∉ ignored)) }
        else out.core
      else out.core
  { core := core',
    stepCount := s.stepCount + s.core.readyIds.length,
    collectedEpisodes := collected',
    episodeReturns := s.episodeReturns ++ doneRows.map (fun r => r.ret.epRew),
    episodeLens := s.episodeLens ++ doneRows.map (fun r => r.ret.epLen),
    episodeStartIdxs :=
      s.episodeStartIdxs ++ doneRows.map (fun r => r.ret.epIdx + r.slot * w.shardCap) }

/-- The `while` loop's breaking condition
(`(n_step and step_count >= n_step) or (n_episode and ...)`); a zero budget
is falsy in Python and never breaks. -/
def breakCond : CollectMode → Nat → Nat → Bool
  | CollectMode.stepMode n, steps, _ => decide (0 < n) && decide (n ≤ steps)
  | CollectMode.episodeMode n, _, eps => decide (0 < n) && decide (n ≤ eps)

/-- The collection loop: iterate `stepOnce` until the budget's breaking
condition holds, checked after each iteration as in the source.  `fuel`
bounds the number of iterations; `none` models a call that has not broken
within `fuel` iterations. -/
def runLoop {E O I A H LO LG : Type} (w : World E O I A H LO LG)
    (mode : CollectMode) :
    Nat → LoopState E O I A H LO LG → Option (LoopState E O I A H LO LG)
  | 0, _ => none
  | fuel + 1, s =>
    let s' := stepOnce w mode s
    if breakCond mode s'.stepCount s'.collectedEpisodes then some s'
    else runLoop w mode fuel s'

/-- The per-collector state that survives between calls: the environments,
the `_pre_collect` observation / info / hidden state, and the buffer (shard
counters plus the written transitions). -/
structure CollectorState (E O I A H LO LG : Type) where
  envs : Nat → E
  preObs : Nat → O
  preInfo : Nat → I
  preHidden : Nat → Option H
  shards : Nat → ShardCtr
  writes : List (Transition O I A LO LG)

/-- The statistics a collect call returns (`CollectStats`). -/
structure CollectStats where
  nCollectedSteps : Nat
  nCollectedEpisodes : Nat
  episodeReturns : List Int
  episodeLens : List Nat
  episodeStartIdxs : List Nat
  deriving DecidableEq, Repr

/-- The loop state a call starts from: ready ids as selected by the budget
dispatch, counters at zero, statistics empty, and the core taken from the
persisted collector state. -/
def initLoopState {E O I A H LO LG : Type} (cs : CollectorState E O I A H LO LG)
    (ready : List Nat) : LoopState E O I A H LO LG :=
  { core :=
      { readyIds := ready, envs := cs.envs, lastObs := cs.preObs,
        lastInfo := cs.preInfo, lastHidden := cs.preHidden,
        shards := cs.shards, writes := cs.writes },
    stepCount := 0, collectedEpisodes := 0, episodeReturns := [],
    episodeLens := [], episodeStartIdxs := [] }

/-- Step-count-mode epilogue (goal_based_collector.py lines 309-313): persist
the final per-slot observation, info and hidden state into the
`_pre_collect` fields for the next call. -/
def persistedAfter {E O I A H LO LG : Type} (s : LoopState E O I A H LO LG) :
    CollectorState E O I A H LO LG :=
  { envs := s.core.envs, preObs := s.core.lastObs, preInfo := s.core.lastInfo,
    preHidden := s.core.lastHidden, shards := s.core.shards,
    writes := s.core.writes }

/-- Episode-count-mode epilogue (goal_based_collector.py lines 314-316),
with `reset_env` modelled from the spec ("at the end, all environments are
reset and no state is persisted across calls"; the method itself lives in
the RL library, not under `src/`): every environment is reset, the
`_pre_collect` fields are refilled from the fresh resets, and the hidden
state becomes the no-state sentinel; only the buffer survives. -/
def resetAfter {E O I A H LO LG : Type} (w : World E O I A H LO LG)
    (s : LoopState E O I A H LO LG) : CollectorState E O I A H LO LG :=
  { envs := fun i => (w.envReset i).env,
    preObs := fun i => (w.envReset i).obs,
    preInfo := fun i => (w.envReset i).info,
    preHidden := fun _ => none,
    shards := s.core.shards, writes := s.core.writes }

/-- The statistics reported for a finished loop state. -/
def statsOf {E O I A H LO LG : Type} (s : LoopState E O I A H LO LG) :
    CollectStats :=
  { nCollectedSteps := s.stepCount, nCollectedEpisodes := s.collectedEpisodes,
    episodeReturns := s.episodeReturns, episodeLens := s.episodeLens,
    episodeStartIdxs := s.episodeStartIdxs }

/-- A full collect call in a valid mode: select the ready set, run the loop,
and apply the mode's epilogue. -/
def collectCall {E O I A H LO LG : Type} (w : World E O I A H LO LG)
    (mode : CollectMode) (cs : CollectorState E O I A H LO LG) (fuel : Nat) :
    Option (CollectorState E O I A H LO LG × CollectStats) :=
  let ready :=
    match mode with
    | CollectMode.stepMode _ => List.range w.numEnvs
    | CollectMode.episodeMode n => List.range (min w.numEnvs n)
  match runLoop w mode fuel (initLoopState cs ready) with
  | none => none
  | some s =>
    match mode with
    | CollectMode.stepMode _ => some (persistedAfter s, statsOf s)
    | CollectMode.episodeMode _ => some (resetAfter w s, statsOf s)

/-- One-iteration statistics delta in step-count mode, as a function of the
pre-iteration core alone. -/
def iterStats {E O I A H LO LG : Type} (w : World E O I A H LO LG)
    (c : CoreState E O I A H LO LG) : CollectStats :=
  { nCollectedSteps := c.readyIds.length,
    nCollectedEpisodes := (iterDoneRows w c).length,
    episodeReturns := (iterDoneRows w c).map (fun r => r.ret.epRew),
    episodeLens := (iterDoneRows w c).map (fun r => r.ret.epLen),
    episodeStartIdxs :=
      (iterDoneRows w c).map (fun r => r.ret.epIdx + r.slot * w.shardCap) }

/-- Concatenation of collect statistics: counters add, episode lists
concatenate. -/
def statsAppend (a b : CollectStats) : CollectStats :=
  { nCollectedSteps := a.nCollectedSteps + b.nCollectedSteps,
    nCollectedEpisodes := a.nCollectedEpisodes + b.nCollectedEpisodes,
    episodeReturns := a.episodeReturns ++ b.episodeReturns,
    episodeLens := a.episodeLens ++ b.episodeLens,
    episodeStartIdxs := a.episodeStartIdxs ++ b.episodeStartIdxs }

/-- Empty collect statistics. -/
def statsZero : CollectStats :=
  { nCollectedSteps := 0, nCollectedEpisodes := 0, episodeReturns := [],
    episodeLens := [], episodeStartIdxs := [] }

/-- The statistics accumulated over `j` step-count-mode iterations starting
from core `c`. -/
def statsAccum {E O I A H LO LG : Type} (w : World E O I A H LO LG)
    (c : CoreState E O I A H LO LG) : Nat → CollectStats
  | 0 => statsZero
  | j + 1 => statsAppend (statsAccum w c j) (iterStats w ((coreNext w)^[j] c))

/-- One row of the knowledge base: the four reserved keys `latent_obs`,
`act`, `rew`, `traj_id`.  `KnowledgeBaseManager.add` preprocesses each
incoming batch down to exactly these keys, so nothing else of the batch —
in particular no done flag — ever reaches a shard. -/
structure KBEntry where
  latentObs : Int
  act : Int
  rew : Int
  trajId : Nat
  deriving DecidableEq, Repr

/-- One knowledge-base shard: its index bookkeeping plus its stored rows
(length `ctr.cap`, zero-initialised like the numpy storage). -/
structure KBShard where
  ctr : ShardCtr
  data : List KBEntry
  deriving DecidableEq, Repr

/-- The vectorised knowledge base: the shard list and `traj_meta`, the
insertion-ordered map from a trajectory identifier to one optional
`(first, last)` global-index pair per shard. -/
structure KBState where
  shards : List KBShard
  trajMeta : List (Nat × List (Option (Nat × Nat)))
  deriving DecidableEq, Repr

/-- The zero row backing unwritten storage slots. -/
def kbEntryZero : KBEntry := { latentObs := 0, act := 0, rew := 0, trajId := 0 }

/-- A fresh vectorised knowledge base of `n` shards of capacity `cap` each
(`VectorKnowledgeBase.__init__`). -/
def kbInit (n cap : Nat) : KBState :=
  { shards := List.replicate n
      { ctr := shardCtrInit cap, data := List.replicate cap kbEntryZero },
    trajMeta := [] }

/-- The flat global-index offset of shard `b`: the sum of the capacities of
the shards before it (`self._offset`). -/
def kbOffset (kb : KBState) (b : Nat) : Nat :=
  ((kb.shards.take b).map (fun sh => sh.ctr.cap)).sum

/-- Store a row under a key in the insertion-ordered map: replace in place
if present, append otherwise (Python dict assignment). -/
def metaStore (m : List (Nat × List (Option (Nat × Nat)))) (tid : Nat)
    (row : List (Option (Nat × Nat))) : List (Nat × List (Option (Nat × Nat))) :=
  match m with
  | [] => [(tid, row)]
  | (k, r) :: rest =>
    if k = tid then (tid, row) :: rest else (k, r) :: metaStore rest tid row

/-- The recorded `(first, last)` pair of `(traj_id, shard)` if any. -/
def metaLookup (kb : KBState) (tid b : Nat) : Option (Nat × Nat) :=
  match kb.trajMeta.lookup tid with
  | none => none
  | some row => row.getD b none

/-- The shard at position `b` (total accessor; every use is guarded by
`b < kb.shards.length`, where it coincides with `self.buffers[b]`). -/
def kbShardAt (kb : KBState) (b : Nat) : KBShard :=
  kb.shards.getD b { ctr := shardCtrInit 0, data := [] }

/-- Shallow embedding of one loop turn of `KnowledgeBaseManager.add`
(knowledge_base.py lines 89-116) for one `(buffer_id, row)` pair: run the
shard's `_add_index` with the done flag forced to `False`, write the row at
the returned local pointer, and record or extend the `(first, last)`
global-index pair of `(traj_id, buffer_id)`; the first occurrence sets both
bounds to the new global index (`self.last_index[buffer_id]`), later
occurrences keep `first` and move `last`.  A batched `add` call is the
left-to-right composition of these turns, which also matches the post-loop
`self._meta[ptrs] = batch` write because each turn writes its own pointer. -/
def kbAddOne (kb : KBState) (p : Nat × KBEntry) : KBState :=
  if p.1 < kb.shards.length then
    let sh := kbShardAt kb p.1
    let sa := shardAddIndex sh.ctr p.2.rew false
    let g := sa.2.ptr + kbOffset kb p.1
    let sh' : KBShard := { ctr := sa.1, data := sh.data.set sa.2.ptr p.2 }
    let row :=
      match kb.trajMeta.lookup p.2.trajId with
      | none => List.replicate kb.shards.length none
      | some r => r
    let seg :=
      match row.getD p.1 none with
      | none => (g, g)
      | some fl => (fl.1, g)
    { shards := kb.shards.set p.1 sh',
      trajMeta := metaStore kb.trajMeta p.2.trajId (row.set p.1 (some seg)) }
  else kb

/-- The quadruple `_add_index` returns for the next write, before the write
is applied (`ptrs`/`ep_rews`/`ep_lens`/`ep_idxs` entry of
`KnowledgeBaseManager.add`). -/
def kbAddRet (kb : KBState) (p : Nat × KBEntry) : Option ShardAddRet :=
  match kb.shards.get? p.1 with
  | none => none
  | some sh => some (shardAddIndex sh.ctr p.2.rew false).2

/-- Replay a flat history of single-row adds. -/
def kbAddFlat (kb : KBState) (hist : List (Nat × KBEntry)) : KBState :=
  hist.foldl kbAddOne kb

/-- The sequence of rows written to shard `b` by a history, in order. -/
def shardSeq (hist : List (Nat × KBEntry)) (b : Nat) : List KBEntry :=
  (hist.filter (fun p => decide (p.1 = b))).map (fun p => p.2)

/-- The global indices at which a history writes trajectory `tid` into shard
`b` of a knowledge base shaped like `kbInit n cap`: the `k`-th write to the
shard lands at global index `b * cap + k % cap`. -/
def trajWriteIdxs (cap : Nat) (hist : List (Nat × KBEntry)) (tid b : Nat) :
    List Nat :=
  (((shardSeq hist b).enum.filter (fun pe => decide (pe.2.trajId = tid))).map
    (fun pe => b * cap + pe.1 % cap))

/-- The `(first, last)` bounds of a list of write indices. -/
def boundsOf (ws : List Nat) : Option (Nat × Nat) :=
  match ws.head?, ws.getLast? with
  | some f, some l => some (f, l)
  | _, _ => none

/-- Python slice `arange(size)[start:stop]`: the valid local indices of a
shard between `start` (inclusive) and `stop` (exclusive), clamped to the
valid count. -/
def pySlice (start stop size : Nat) : List Nat :=
  ((List.range size).drop start).take (stop - start)

/-- `KnowledgeBase.__getitem__` on a slice (knowledge_base.py lines 32-58):
the batch of the rows at `self._indices[:len(self)][start:stop]`. -/
def kbShardSlice (sh : KBShard) (start stop : Nat) : List KBEntry :=
  (pySlice start stop sh.ctr.size).map (fun j => sh.data.getD j kbEntryZero)

/-- Shallow embedding of `KnowledgeBaseManager.get_trajectory`
(knowledge_base.py lines 137-162): an unseen identifier raises `KeyError`
(modelled as `none`); otherwise one entry per shard, `none` where the shard's
segment is absent and otherwise the shard's batch sliced from
`first - offset` to `last - offset + 1` (last index included). -/
def getTrajectory (kb : KBState) (tid : Nat) :
    Option (List (Option (List KBEntry))) :=
  match kb.trajMeta.lookup tid with
  | none => none
  | some row =>
    some ((List.range kb.shards.length).map (fun b =>
      match row.getD b none with
      | none => none
      | some fl =>
        match kb.shards.get? b with
        | none => none
        | some sh =>
          some (kbShardSlice sh (fl.1 - kbOffset kb b)
            (fl.2 - kbOffset kb b + 1))))

/-- The reachable-state invariant of the vectorised knowledge base built
from `kbInit n cap` by a history of single-row adds: the shard count and
capacities are fixed; each shard's write pointer, valid count, and episode
accumulators are determined by the number of rows it received (the done flag
being forced to `False`, the episode accumulators never reset and no episode
is ever closed); and `traj_meta` records, per trajectory and shard, exactly
the first and last global write index of that trajectory in that shard. -/
structure KBInv (n cap : Nat) (hist : List (Nat × KBEntry)) (kb : KBState) :
    Prop where
  len : kb.shards.length = n
  caps : ∀ sh ∈ kb.shards, sh.ctr.cap = cap
  widx : ∀ b, b < n → (kbShardAt kb b).ctr.idx = (shardSeq hist b).length % cap
  wsize : ∀ b, b < n →
    (kbShardAt kb b).ctr.size = min (shardSeq hist b).length cap
  closed : ∀ b, b < n → (kbShardAt kb b).ctr.closedEpisodes = 0
  estart : ∀ b, b < n → (kbShardAt kb b).ctr.epStart = 0
  elen : ∀ b, b < n → (kbShardAt kb b).ctr.epLen = (shardSeq hist b).length
  meta : ∀ tid b, b < n →
    metaLookup kb tid b = boundsOf (trajWriteIdxs cap hist tid b)
  unseen : ∀ tid,
    kb.trajMeta.lookup tid = none ↔ (∀ p ∈ hist, p.2.trajId ≠ tid)
  rowlen : ∀ tid row, kb.trajMeta.lookup tid = some row → row.length = n

/-- The batch `GoalReplayBuffer.__getitem__` returns for one index. -/
structure GoalItem (O G A : Type) where
  obs : O
  latentGoal : G
  act : A
  obsNext : O
  latentGoalNext : G
  rew : Int
  done : Bool

/-- The storage of a `GoalReplayBuffer`: the per-field arrays and the
`_save_obs_next` flag.  `obsNextStored` / `latentGoalNextStored` are the
stored `obs_next` / `latent_goal_next` arrays, used only when the buffer
saves next observations. -/
structure GoalBuf (O G A : Type) where
  saveObsNext : Bool
  obs : Nat → O
  latentGoal : Nat → G
  act : Nat → A
  obsNextStored : Nat → O
  latentGoalNextStored : Nat → G
  rew : Nat → Int
  doneArr : Nat → Bool

/-- Shallow embedding of `GoalReplayBuffer.__getitem__` (buffer.py lines
42-83) at one index, with the library's `self.next` passed in as `nextIdx`:
when `_save_obs_next` holds, `obs_next` and `latent_goal_next` come from
their stored arrays; otherwise `obs_next` is the `obs` entry at
`next(index)` while `latent_goal_next` is the `latent_goal` entry at the
index itself (lines 63-64). -/
def goalBufGetItem {O G A : Type} (buf : GoalBuf O G A) (nextIdx : Nat → Nat)
    (i : Nat) : GoalItem O G A :=
  { obs := buf.obs i,
    latentGoal := buf.latentGoal i,
    act := buf.act i,
    obsNext := if buf.saveObsNext then buf.obsNextStored i else buf.obs (nextIdx i),
    latentGoalNext :=
      if buf.saveObsNext then buf.latentGoalNextStored i else buf.latentGoal i,
    rew := buf.rew i,
    done := buf.doneArr i }

/-- A concrete deterministic world over unit payloads: slot `i` terminates
its episode on every step exactly when `doneFn i`. -/
def unitWorld (numEnvs : Nat) (doneFn : Nat → Bool) :
    World Unit Unit Unit Unit Unit Unit Unit :=
  { numEnvs := numEnvs, shardCap := 8,
    envStep := fun i _ _ =>
      { env := (), obs := (), info := (), rew := 0, terminated := doneFn i,
        truncated := false },
    envReset := fun _ => { env := (), obs := (), info := () },
    policy := fun _ _ => { act := (), state := none, latentObs := (), latentGoal := () },
    mapAction := id }

/-- A freshly reset collector state for a unit world. -/
def unitCollector : CollectorState Unit Unit Unit Unit Unit Unit Unit :=
  { envs := fun _ => (), preObs := fun _ => (), preInfo := fun _ => (),
    preHidden := fun _ => none, shards := fun _ => shardCtrInit 8, writes := [] }

/-- A concrete goal replay buffer that does not save next observations, with
index-distinguishing payloads. -/
def exGoalBuf : GoalBuf Nat Nat Nat :=
  { saveObsNext := false, obs := fun j => j, latentGoal := fun j => j + 10,
    act := fun _ => 0, obsNextStored := fun _ => 0,
    latentGoalNextStored := fun _ => 0, rew := fun _ => 0,
    doneArr := fun _ => false }

/-- Claim C1 as stated, at one episode-count-mode iteration: whenever the
number of slots whose episode finished this iteration exceeds the number of
episodes still needed to reach the target, exactly that surplus count of
slots is removed from the ready set. -/
def claimC1TrimCount {E O I A H LO LG : Type} (w : World E O I A H LO LG)
    (nEp : Nat) (s : LoopState E O I A H LO LG) : Prop :=
  nEp - (s.collectedEpisodes + (iterDoneIds w s.core).length) <
      (iterDoneIds w s.core).length →
    s.core.readyIds.length =
      (stepOnce w (CollectMode.episodeMode nEp) s).core.readyIds.length +
        ((iterDoneIds w s.core).length -
          (nEp - (s.collectedEpisodes + (iterDoneIds w s.core).length)))

/-- Claim C2 as stated, at one world and starting collector state: two
sequential step-count-mode calls of target 50 write the same transitions and
report the same total step count and episode boundaries as one call of
target 100. -/
def claimC2Continuity {E O I A H LO LG : Type} (w : World E O I A H LO LG)
    (cs : CollectorState E O I A H LO LG) (fuel : Nat) : Prop :=
  ∀ cs1 st1 cs2 st2 csS stS,
    collectCall w (CollectMode.stepMode 50) cs fuel = some (cs1, st1) →
    collectCall w (CollectMode.stepMode 50) cs1 fuel = some (cs2, st2) →
    collectCall w (CollectMode.stepMode 100) cs fuel = some (csS, stS) →
    cs2.writes = csS.writes ∧
    st1.nCollectedSteps + st2.nCollectedSteps = stS.nCollectedSteps ∧
    st1.episodeReturns ++ st2.episodeReturns = stS.episodeReturns ∧
    st1.episodeLens ++ st2.episodeLens = stS.episodeLens ∧
    st1.episodeStartIdxs ++ st2.episodeStartIdxs = stS.episodeStartIdxs

/-- C3: a collect call fails with `InvalidCollectionBudget` exactly when zero
or two budgets are configured; with exactly one budget set it does not fail
for that reason. -/
theorem C3_budget_validation (envNum : Nat) (nStep nEpisode : Option Nat) :
    collectBudgetCheck envNum nStep nEpisode =
        Except.error CollectError.invalidCollectionBudget ↔
      ((nStep = none ∧ nEpisode = none) ∨ (nStep ≠ none ∧ nEpisode ≠ none)) := by
  cases nStep <;> cases nEpisode <;>
    simp [collectBudgetCheck, collectEntryGuard, collectModeSelect]

/-- C4: in random mode, `_compute_action_policy_hidden` samples the actions
but then reads the locals `latent_obs_R` and `latent_goal_R`, which the
random branch never assigns, so the call raises `UnboundLocalError` instead
of completing: the code contradicts both its own signature and the spec's
random-mode description. -/
theorem C4_random_mode_unbound_local {A H LO LG P O : Type}
    (sampleActs : List Nat → A) (mapActionInverse mapAction : A → A)
    (emptyPolicy : P) (policyFn : O → Option H → PolicyOut A H LO LG P)
    (readyEnvIds : List Nat) (lastObs : O) (lastHidden : Option H) :
    computeActionPolicyHidden sampleActs mapActionInverse mapAction emptyPolicy
        policyFn true readyEnvIds lastObs lastHidden =
      Except.error CollectError.unboundLocalError := rfl

/-- C5: in non-random mode, a policy output that omits the latent
observation or the latent goal makes the iteration fail with
`MissingLatentState` during action computation, and the error aborts the
iteration before any transition is written to the buffer. -/
theorem C5_missing_latent_aborts {A H LO LG P O T : Type}
    (sampleActs : List Nat → A) (mapActionInverse mapAction : A → A)
    (emptyPolicy : P) (policyFn : O → Option H → PolicyOut A H LO LG P)
    (envStepWrite : List Nat → A → LO → LG → T)
    (readyEnvIds : List Nat) (lastObs : O) (lastHidden : Option H)
    (buffer : List T)
    (hmiss : (policyFn lastObs lastHidden).latentObs = none ∨
      (policyFn lastObs lastHidden).latentGoal = none) :
    collectIterWrites sampleActs mapActionInverse mapAction emptyPolicy
        policyFn envStepWrite false readyEnvIds lastObs lastHidden buffer =
      Except.error CollectError.missingLatentState := by
  rcases hlo : (policyFn lastObs lastHidden).latentObs with _ | lo <;>
    rcases hlg : (policyFn lastObs lastHidden).latentGoal with _ | lg <;>
    simp_all [collectIterWrites, computeActionPolicyHidden] <;> rfl

/-- Witness for C5 at a concrete instantiation whose policy omits the latent
observation. -/
theorem C5_missing_latent_aborts_witness :
    collectIterWrites (fun _ => (0 : Nat)) id id (0 : Nat)
        (fun (_ : Nat) (_ : Option Nat) =>
          ({ act := 0, state := none, policyEntry := 0, latentObs := none,
             latentGoal := some 0 } : PolicyOut Nat Nat Nat Nat Nat))
        (fun _ _ _ _ => (0 : Nat)) false [0] 0 none [] =
      Except.error CollectError.missingLatentState :=
  C5_missing_latent_aborts (fun _ => (0 : Nat)) id id (0 : Nat)
    (fun _ _ =>
      ({ act := 0, state := none, policyEntry := 0, latentObs := none,
         latentGoal := some 0 } : PolicyOut Nat Nat Nat Nat Nat))
    (fun _ _ _ _ => (0 : Nat)) [0] 0 none [] (Or.inl rfl)

/-- C9: with `_save_obs_next` off, `__getitem__` computes `obs_next` from the
entry at `next(index)` but takes `latent_goal_next` from the `latent_goal`
stored at the index itself, so it equals that index's own latent goal and
differs from the following transition's latent goal whenever the two stored
goals differ. -/
theorem C9_latent_goal_next_same_index {O G A : Type} (buf : GoalBuf O G A)
    (nextIdx : Nat → Nat) (i : Nat) (h : buf.saveObsNext = false) :
    (goalBufGetItem buf nextIdx i).obsNext = buf.obs (nextIdx i) ∧
    (goalBufGetItem buf nextIdx i).latentGoalNext = buf.latentGoal i ∧
    (buf.latentGoal i ≠ buf.latentGoal (nextIdx i) →
      (goalBufGetItem buf nextIdx i).latentGoalNext ≠
        buf.latentGoal (nextIdx i)) := by
  simp [goalBufGetItem, h]

/-- Witness for C9 at a concrete buffer and index. -/
theorem C9_latent_goal_next_same_index_witness :
    (goalBufGetItem exGoalBuf Nat.succ 0).obsNext = exGoalBuf.obs 1 ∧
    (goalBufGetItem exGoalBuf Nat.succ 0).latentGoalNext = exGoalBuf.latentGoal 0 ∧
    (exGoalBuf.latentGoal 0 ≠ exGoalBuf.latentGoal 1 →
      (goalBufGetItem exGoalBuf Nat.succ 0).latentGoalNext ≠
        exGoalBuf.latentGoal 1) :=
  C9_latent_goal_next_same_index exGoalBuf Nat.succ 0 rfl

/-- C1 counterexample: at the very first iteration of an episode-count-mode
call with 4 environments and a target of 5 episodes, in a world where slots
0, 1 and 2 finish their episode on the first step, 3 episodes finish while 2
are still needed, yet the collector removes 2 slots (surplus
`len(ready) - remaining = 4 - 2`), not the `3 - 2 = 1` the claim predicts. -/
theorem C1_trim_counterexample :
    ¬ claimC1TrimCount (unitWorld 4 (fun i => decide (i < 3))) 5
      (initLoopState unitCollector (List.range (min 4 5))) := by
  unfold claimC1TrimCount
  decide

set_option maxHeartbeats 2000000 in
/-- The first 50-step call on the 4-environment unit world terminates. -/
theorem c2auxFirstCall :
    (collectCall (unitWorld 4 (fun _ => false)) (CollectMode.stepMode 50)
      unitCollector 200).isSome = true := by decide

set_option maxHeartbeats 2000000 in
/-- The second 50-step call, resumed from the first call's collector state,
terminates. -/
theorem c2auxSecondCall :
    (collectCall (unitWorld 4 (fun _ => false)) (CollectMode.stepMode 50)
      ((collectCall (unitWorld 4 (fun _ => false)) (CollectMode.stepMode 50)
        unitCollector 200).get c2auxFirstCall).1 200).isSome = true := by decide

set_option maxHeartbeats 2000000 in
/-- The single 100-step call terminates. -/
theorem c2auxSingleCall :
    (collectCall (unitWorld 4 (fun _ => false)) (CollectMode.stepMode 100)
      unitCollector 200).isSome = true := by decide

set_option maxHeartbeats 4000000 in
/-- C2 counterexample: with 4 parallel environments (4 does not divide 50),
each step-count-mode call overshoots its target to a multiple of 4: the two
50-step calls report 52 steps each (104 in total) while the single 100-step
call reports 100, so the claim fails on this collector. -/
theorem C2_continuity_counterexample :
    ¬ claimC2Continuity (unitWorld 4 (fun _ => false)) unitCollector 200 := by
  intro h
  obtain ⟨-, hsteps, -, -, -⟩ :=
    h _ _ _ _ _ _ (Option.some_get c2auxFirstCall).symm
      (Option.some_get c2auxSecondCall).symm
      (Option.some_get c2auxSingleCall).symm
  exact absurd hsteps (by decide)

/-- Applying iteration rows never changes the ready set. -/
theorem foldl_applyRow_readyIds {E O I A H LO LG : Type}
    (rs : List (IterRow E O I A H LO LG)) (c : CoreState E O I A H LO LG) :
    (rs.foldl applyRow c).readyIds = c.readyIds := by
  induction rs generalizing c with
  | nil => rfl
  | cons r rs ih => simpa [applyRow] using ih (applyRow c r)

/-- Episode-boundary resets never change the ready set. -/
theorem foldl_applyReset_readyIds {E O I A H LO LG : Type}
    (w : World E O I A H LO LG) (rs : List (IterRow E O I A H LO LG))
    (c : CoreState E O I A H LO LG) :
    (rs.foldl (fun cc r => applyReset w cc r.slot) c).readyIds = c.readyIds := by
  induction rs generalizing c with
  | nil => rfl
  | cons r rs ih => simpa [applyReset] using ih (applyReset w c r.slot)

/-- The mode-independent part of an iteration preserves the ready set. -/
theorem coreNext_readyIds {E O I A H LO LG : Type} (w : World E O I A H LO LG)
    (c : CoreState E O I A H LO LG) :
    (coreNext w c).readyIds = c.readyIds := by
  simp [coreNext, iterOnce, foldl_applyReset_readyIds, foldl_applyRow_readyIds]

/-- Iterating the mode-independent part preserves the ready set. -/
theorem coreNext_iterate_readyIds {E O I A H LO LG : Type}
    (w : World E O I A H LO LG) (j : Nat) (c : CoreState E O I A H LO LG) :
    ((coreNext w)^[j] c).readyIds = c.readyIds := by
  induction j generalizing c with
  | zero => rfl
  | succ j ih =>
    rw [Function.iterate_succ_apply]
    rw [ih (coreNext w c), coreNext_readyIds]

/-- In step-count mode one iteration is the mode-independent core step plus
counter and statistics accumulation. -/
theorem stepOnce_stepMode {E O I A H LO LG : Type} (w : World E O I A H LO LG)
    (n : Nat) (s : LoopState E O I A H LO LG) :
    stepOnce w (CollectMode.stepMode n) s =
      { core := coreNext w s.core,
        stepCount := s.stepCount + s.core.readyIds.length,
        collectedEpisodes := s.collectedEpisodes + (iterDoneRows w s.core).length,
        episodeReturns :=
          s.episodeReturns ++ (iterDoneRows w s.core).map (fun r => r.ret.epRew),
        episodeLens :=
          s.episodeLens ++ (iterDoneRows w s.core).map (fun r => r.ret.epLen),
        episodeStartIdxs :=
          s.episodeStartIdxs ++
            (iterDoneRows w s.core).map
              (fun r => r.ret.epIdx + r.slot * w.shardCap) } := rfl

/-- Appending empty statistics on the right is the identity. -/
theorem statsAppend_zero (a : CollectStats) : statsAppend a statsZero = a := by
  cases a
  simp [statsAppend, statsZero]

/-- Statistics concatenation is associative. -/
theorem statsAppend_assoc (a b c : CollectStats) :
    statsAppend (statsAppend a b) c = statsAppend a (statsAppend b c) := by
  cases a
  cases b
  cases c
  simp [statsAppend, Nat.add_assoc]

/-- Accumulated statistics split at any intermediate iteration count. -/
theorem statsAccum_add {E O I A H LO LG : Type} (w : World E O I A H LO LG)
    (c : CoreState E O I A H LO LG) (j1 j2 : Nat) :
    statsAccum w c (j1 + j2) =
      statsAppend (statsAccum w c j1)
        (statsAccum w ((coreNext w)^[j1] c) j2) := by
  induction j2 with
  | zero => simp [statsAccum, statsAppend_zero]
  | succ j ih =>
    have harr : j1 + (j + 1) = (j1 + j) + 1 := by omega
    rw [harr]
    show statsAppend (statsAccum w c (j1 + j))
        (iterStats w ((coreNext w)^[j1 + j] c)) = _
    rw [ih]
    show _ = statsAppend (statsAccum w c j1)
      (statsAppend (statsAccum w ((coreNext w)^[j1] c) j)
        (iterStats w ((coreNext w)^[j] ((coreNext w)^[j1] c))))
    rw [statsAppend_assoc]
    have hiter : (coreNext w)^[j1 + j] c = (coreNext w)^[j] ((coreNext w)^[j1] c) := by
      rw [Nat.add_comm j1 j, Function.iterate_add_apply]
    rw [hiter]

/-- Iterating a step-count-mode iteration decomposes into the iterated core
step and the accumulated statistics. -/
theorem stepMode_iterate {E O I A H LO LG : Type} (w : World E O I A H LO LG)
    (n : Nat) (j : Nat) (s : LoopState E O I A H LO LG) :
    (stepOnce w (CollectMode.stepMode n))^[j] s =
      { core := (coreNext w)^[j] s.core,
        stepCount := s.stepCount + (statsAccum w s.core j).nCollectedSteps,
        collectedEpisodes :=
          s.collectedEpisodes + (statsAccum w s.core j).nCollectedEpisodes,
        episodeReturns := s.episodeReturns ++ (statsAccum w s.core j).episodeReturns,
        episodeLens := s.episodeLens ++ (statsAccum w s.core j).episodeLens,
        episodeStartIdxs :=
          s.episodeStartIdxs ++ (statsAccum w s.core j).episodeStartIdxs } := by
  induction j with
  | zero =>
    cases s
    simp [statsAccum, statsZero]
  | succ j ih =>
    rw [Function.iterate_succ_apply', ih, stepOnce_stepMode]
    have hready : ((coreNext w)^[j] s.core).readyIds = s.core.readyIds :=
      coreNext_iterate_readyIds w j s.core
    simp [statsAccum, statsAppend, iterStats, Function.iterate_succ_apply',
      hready, Nat.add_assoc]

/-- The step-count-mode loop breaks after exactly the number of iterations
that first reaches the target, returning the iterated state. -/
theorem runLoop_stepMode_eq {E O I A H LO LG : Type} (w : World E O I A H LO LG)
    (n : Nat) :
    ∀ (kp fuel : Nat) (s : LoopState E O I A H LO LG), kp + 1 ≤ fuel → 0 < n →
      s.stepCount + s.core.readyIds.length * kp < n →
      n ≤ s.stepCount + s.core.readyIds.length * (kp + 1) →
      runLoop w (CollectMode.stepMode n) fuel s =
        some ((stepOnce w (CollectMode.stepMode n))^[kp + 1] s) := by
  intro kp
  induction kp with
  | zero =>
    intro fuel s hfuel hn _hlow hhigh
    match fuel, hfuel with
    | f + 1, _ =>
      show (if breakCond (CollectMode.stepMode n) _ _ then _ else _) = _
      rw [stepOnce_stepMode]
      have hbreak :
          breakCond (CollectMode.stepMode n)
            (s.stepCount + s.core.readyIds.length) (s.collectedEpisodes +
              (iterDoneRows w s.core).length) = true := by
        simp only [breakCond, Bool.and_eq_true, decide_eq_true_eq]
        omega
      simp only [stepOnce_stepMode] at hbreak ⊢
      rw [hbreak]
      simp [Function.iterate_one, stepOnce_stepMode]
  | succ kp ih =>
    intro fuel s hfuel hn hlow hhigh
    match fuel, hfuel with
    | f + 1, hfuel =>
      show (if breakCond (CollectMode.stepMode n) _ _ then _ else _) = _
      have hnb :
          breakCond (CollectMode.stepMode n)
            ((stepOnce w (CollectMode.stepMode n) s).stepCount)
            ((stepOnce w (CollectMode.stepMode n) s).collectedEpisodes) = false := by
        rw [stepOnce_stepMode]
        simp only [breakCond, Bool.and_eq_false_iff, decide_eq_false_iff_not]
        right
        intro hcon
        have : s.core.readyIds.length * 1 ≤ s.core.readyIds.length * (kp + 1) :=
          Nat.mul_le_mul_left _ (by omega)
        omega
      rw [hnb]
      rw [if_neg (by simp)]
      have hready : (stepOnce w (CollectMode.stepMode n) s).core.readyIds.length =
          s.core.readyIds.length := by
        rw [stepOnce_stepMode]
        simpa using congrArg List.length (coreNext_readyIds w s.core)
      have hstep : (stepOnce w (CollectMode.stepMode n) s).stepCount =
          s.stepCount + s.core.readyIds.length := by rw [stepOnce_stepMode]
      have := ih f (stepOnce w (CollectMode.stepMode n) s) (by omega) hn
        (by rw [hready, hstep]; ring_nf; ring_nf at hlow; omega)
        (by rw [hready, hstep]; ring_nf; ring_nf at hhigh; omega)
      rw [this, ← Function.iterate_succ_apply]

/-- A step-count-mode collect call whose loop is known to finish persists the
final loop state and reports its statistics. -/
theorem collectCall_stepMode_eq {E O I A H LO LG : Type}
    (w : World E O I A H LO LG) (n fuel : Nat)
    (cs : CollectorState E O I A H LO LG) (s' : LoopState E O I A H LO LG)
    (h : runLoop w (CollectMode.stepMode n) fuel
      (initLoopState cs (List.range w.numEnvs)) = some s') :
    collectCall w (CollectMode.stepMode n) cs fuel =
      some (persistedAfter s', statsOf s') := by
  simp [collectCall, h]

/-- Resuming from a persisted step-mode state restarts the loop at the same
core with fresh counters. -/
theorem initLoopState_persistedAfter {E O I A H LO LG : Type}
    (s : LoopState E O I A H LO LG) (r : List Nat)
    (h : s.core.readyIds = r) :
    initLoopState (persistedAfter s) r =
      { core := s.core, stepCount := 0, collectedEpisodes := 0,
        episodeReturns := [], episodeLens := [], episodeStartIdxs := [] } := by
  subst h
  rfl

/-- Persisting reads only the core, so equal cores persist equally. -/
theorem persistedAfter_congr {E O I A H LO LG : Type}
    {s t : LoopState E O I A H LO LG} (h : s.core = t.core) :
    persistedAfter s = persistedAfter t := by
  unfold persistedAfter
  rw [h]

/-- Statistics of an iterated step-mode loop started with fresh counters. -/
theorem statsOf_iterate_init {E O I A H LO LG : Type}
    (w : World E O I A H LO LG) (n j : Nat) (c : CoreState E O I A H LO LG) :
    statsOf ((stepOnce w (CollectMode.stepMode n))^[j]
        { core := c, stepCount := 0, collectedEpisodes := 0,
          episodeReturns := [], episodeLens := [], episodeStartIdxs := [] }) =
      statsAccum w c j := by
  rw [stepMode_iterate]
  cases h : statsAccum w c j
  simp [statsOf]

/-- Core of an iterated step-mode loop. -/
theorem core_iterate_stepMode {E O I A H LO LG : Type}
    (w : World E O I A H LO LG) (n j : Nat) (s : LoopState E O I A H LO LG) :
    ((stepOnce w (CollectMode.stepMode n))^[j] s).core =
      (coreNext w)^[j] s.core := by
  rw [stepMode_iterate]

/-- C2 amended: given a deterministic policy and deterministic environments,
and provided the number of parallel environments divides 50 (so each call
collects exactly its target instead of overshooting to the next multiple of
the environment count), two sequential step-count-mode calls with targets 50
and 50 leave the collector in the same state — in particular they write the
same transitions — and report the same total step count and the same episode
boundaries as one single call with target 100. -/
theorem C2_continuity_amended {E O I A H LO LG : Type}
    (w : World E O I A H LO LG) (cs : CollectorState E O I A H LO LG)
    (hN : 1 ≤ w.numEnvs) (hDvd : w.numEnvs ∣ 50) :
    ∃ cs1 st1 cs2 st2 csS stS,
      collectCall w (CollectMode.stepMode 50) cs 100 = some (cs1, st1) ∧
      collectCall w (CollectMode.stepMode 50) cs1 100 = some (cs2, st2) ∧
      collectCall w (CollectMode.stepMode 100) cs 100 = some (csS, stS) ∧
      cs2 = csS ∧
      st1.nCollectedSteps + st2.nCollectedSteps = stS.nCollectedSteps ∧
      st1.nCollectedEpisodes + st2.nCollectedEpisodes = stS.nCollectedEpisodes ∧
      st1.episodeReturns ++ st2.episodeReturns = stS.episodeReturns ∧
      st1.episodeLens ++ st2.episodeLens = stS.episodeLens ∧
      st1.episodeStartIdxs ++ st2.episodeStartIdxs = stS.episodeStartIdxs := by
  have hN50 : w.numEnvs ≤ 50 := Nat.le_of_dvd (by omega) hDvd
  have hk1 : w.numEnvs * (50 / w.numEnvs) = 50 := Nat.mul_div_cancel' hDvd
  have hdivle : 50 / w.numEnvs ≤ 50 := Nat.div_le_self 50 w.numEnvs
  have hk1pos : 1 ≤ 50 / w.numEnvs := by
    rcases Nat.eq_zero_or_pos (50 / w.numEnvs) with h0 | h
    · rw [h0, Nat.mul_zero] at hk1; omega
    · exact h
  have hmul1 : w.numEnvs * (50 / w.numEnvs - 1) + w.numEnvs = 50 := by
    have h := hk1
    rw [show 50 / w.numEnvs = 50 / w.numEnvs - 1 + 1 from (Nat.sub_add_cancel hk1pos).symm,
      Nat.mul_succ] at h
    exact h
  have h2k : w.numEnvs * (2 * (50 / w.numEnvs)) = 100 := by
    rw [Nat.mul_left_comm, hk1]
  have h2kpos : 1 ≤ 2 * (50 / w.numEnvs) := by omega
  have hmul2 : w.numEnvs * (2 * (50 / w.numEnvs) - 1) + w.numEnvs = 100 := by
    have h := h2k
    rw [show 2 * (50 / w.numEnvs) = 2 * (50 / w.numEnvs) - 1 + 1 from
        (Nat.sub_add_cancel h2kpos).symm, Nat.mul_succ] at h
    exact h
  -- the first 50-step call
  have hlen0 : (initLoopState cs (List.range w.numEnvs)).core.readyIds.length =
      w.numEnvs := by simp [initLoopState]
  have hsc0 : (initLoopState cs (List.range w.numEnvs)).stepCount = 0 := rfl
  have hlow1 : (initLoopState cs (List.range w.numEnvs)).stepCount +
      (initLoopState cs (List.range w.numEnvs)).core.readyIds.length *
        (50 / w.numEnvs - 1) < 50 := by
    rw [hsc0, hlen0]; omega
  have hhigh1 : (50 : Nat) ≤ (initLoopState cs (List.range w.numEnvs)).stepCount +
      (initLoopState cs (List.range w.numEnvs)).core.readyIds.length *
        (50 / w.numEnvs - 1 + 1) := by
    rw [hsc0, hlen0, Nat.mul_succ]; omega
  have hrun1 := runLoop_stepMode_eq w 50 (50 / w.numEnvs - 1) 100
    (initLoopState cs (List.range w.numEnvs)) (by omega) (by omega) hlow1 hhigh1
  rw [show 50 / w.numEnvs - 1 + 1 = 50 / w.numEnvs from Nat.sub_add_cancel hk1pos]
    at hrun1
  have hcall1 := collectCall_stepMode_eq w 50 100 cs _ hrun1
  -- the core after the first call, and the restart state of the second call
  have hs1core : ((stepOnce w (CollectMode.stepMode 50))^[50 / w.numEnvs]
      (initLoopState cs (List.range w.numEnvs))).core =
      (coreNext w)^[50 / w.numEnvs] (initLoopState cs (List.range w.numEnvs)).core :=
    core_iterate_stepMode w 50 _ _
  have hready1 : ((stepOnce w (CollectMode.stepMode 50))^[50 / w.numEnvs]
      (initLoopState cs (List.range w.numEnvs))).core.readyIds =
      List.range w.numEnvs := by
    rw [hs1core, coreNext_iterate_readyIds]
    rfl
  have hinit2 := initLoopState_persistedAfter
    ((stepOnce w (CollectMode.stepMode 50))^[50 / w.numEnvs]
      (initLoopState cs (List.range w.numEnvs))) (List.range w.numEnvs) hready1
  -- the second 50-step call
  have hlen2 : (initLoopState (persistedAfter
      ((stepOnce w (CollectMode.stepMode 50))^[50 / w.numEnvs]
        (initLoopState cs (List.range w.numEnvs)))) (List.range w.numEnvs)).core.readyIds.length =
      w.numEnvs := by simp [initLoopState]
  have hsc2 : (initLoopState (persistedAfter
      ((stepOnce w (CollectMode.stepMode 50))^[50 / w.numEnvs]
        (initLoopState cs (List.range w.numEnvs)))) (List.range w.numEnvs)).stepCount = 0 := rfl
  have hlow2 : (initLoopState (persistedAfter
      ((stepOnce w (CollectMode.stepMode 50))^[50 / w.numEnvs]
        (initLoopState cs (List.range w.numEnvs)))) (List.range w.numEnvs)).stepCount +
      (initLoopState (persistedAfter
        ((stepOnce w (CollectMode.stepMode 50))^[50 / w.numEnvs]
          (initLoopState cs (List.range w.numEnvs)))) (List.range w.numEnvs)).core.readyIds.length *
        (50 / w.numEnvs - 1) < 50 := by
    rw [hsc2, hlen2]; omega
  have hhigh2 : (50 : Nat) ≤ (initLoopState (persistedAfter
      ((stepOnce w (CollectMode.stepMode 50))^[50 / w.numEnvs]
        (initLoopState cs (List.range w.numEnvs)))) (List.range w.numEnvs)).stepCount +
      (initLoopState (persistedAfter
        ((stepOnce w (CollectMode.stepMode 50))^[50 / w.numEnvs]
          (initLoopState cs (List.range w.numEnvs)))) (List.range w.numEnvs)).core.readyIds.length *
        (50 / w.numEnvs - 1 + 1) := by
    rw [hsc2, hlen2, Nat.mul_succ]; omega
  have hrun2 := runLoop_stepMode_eq w 50 (50 / w.numEnvs - 1) 100
    (initLoopState (persistedAfter
      ((stepOnce w (CollectMode.stepMode 50))^[50 / w.numEnvs]
        (initLoopState cs (List.range w.numEnvs)))) (List.range w.numEnvs))
    (by omega) (by omega) hlow2 hhigh2
  rw [show 50 / w.numEnvs - 1 + 1 = 50 / w.numEnvs from Nat.sub_add_cancel hk1pos]
    at hrun2
  have hcall2 := collectCall_stepMode_eq w 50 100 (persistedAfter
    ((stepOnce w (CollectMode.stepMode 50))^[50 / w.numEnvs]
      (initLoopState cs (List.range w.numEnvs)))) _ hrun2
  -- the single 100-step call
  have hlowS : (initLoopState cs (List.range w.numEnvs)).stepCount +
      (initLoopState cs (List.range w.numEnvs)).core.readyIds.length *
        (2 * (50 / w.numEnvs) - 1) < 100 := by
    rw [hsc0, hlen0]; omega
  have hhighS : (100 : Nat) ≤ (initLoopState cs (List.range w.numEnvs)).stepCount +
      (initLoopState cs (List.range w.numEnvs)).core.readyIds.length *
        (2 * (50 / w.numEnvs) - 1 + 1) := by
    rw [hsc0, hlen0, Nat.mul_succ]; omega
  have hrunS := runLoop_stepMode_eq w 100 (2 * (50 / w.numEnvs) - 1) 100
    (initLoopState cs (List.range w.numEnvs)) (by omega) (by omega) hlowS hhighS
  rw [show 2 * (50 / w.numEnvs) - 1 + 1 = 2 * (50 / w.numEnvs) from
    Nat.sub_add_cancel h2kpos] at hrunS
  have hcallS := collectCall_stepMode_eq w 100 100 cs _ hrunS
  have hcore2 : ((stepOnce w (CollectMode.stepMode 50))^[50 / w.numEnvs]
      (initLoopState (persistedAfter
        ((stepOnce w (CollectMode.stepMode 50))^[50 / w.numEnvs]
          (initLoopState cs (List.range w.numEnvs)))) (List.range w.numEnvs))).core =
      (coreNext w)^[2 * (50 / w.numEnvs)]
        (initLoopState cs (List.range w.numEnvs)).core := by
    rw [hinit2, core_iterate_stepMode, hs1core, two_mul,
      Function.iterate_add_apply]
  have hcoreS : ((stepOnce w (CollectMode.stepMode 100))^[2 * (50 / w.numEnvs)]
      (initLoopState cs (List.range w.numEnvs))).core =
      (coreNext w)^[2 * (50 / w.numEnvs)]
        (initLoopState cs (List.range w.numEnvs)).core :=
    core_iterate_stepMode w 100 _ _
  have hstats1 : statsOf ((stepOnce w (CollectMode.stepMode 50))^[50 / w.numEnvs]
      (initLoopState cs (List.range w.numEnvs))) =
      statsAccum w (initLoopState cs (List.range w.numEnvs)).core
        (50 / w.numEnvs) :=
    statsOf_iterate_init w 50 (50 / w.numEnvs) _
  have hstats2 : statsOf ((stepOnce w (CollectMode.stepMode 50))^[50 / w.numEnvs]
      (initLoopState (persistedAfter
        ((stepOnce w (CollectMode.stepMode 50))^[50 / w.numEnvs]
          (initLoopState cs (List.range w.numEnvs)))) (List.range w.numEnvs))) =
      statsAccum w ((coreNext w)^[50 / w.numEnvs]
        (initLoopState cs (List.range w.numEnvs)).core) (50 / w.numEnvs) := by
    rw [hinit2, ← hs1core]
    exact statsOf_iterate_init w 50 (50 / w.numEnvs) _
  have hstatsS : statsOf ((stepOnce w (CollectMode.stepMode 100))^[2 * (50 / w.numEnvs)]
      (initLoopState cs (List.range w.numEnvs))) =
      statsAccum w (initLoopState cs (List.range w.numEnvs)).core
        (2 * (50 / w.numEnvs)) :=
    statsOf_iterate_init w 100 (2 * (50 / w.numEnvs)) _
  refine ⟨_, _, _, _, _, _, hcall1, hcall2, hcallS, ?_, ?_, ?_, ?_, ?_, ?_⟩
  · exact persistedAfter_congr (hcore2.trans hcoreS.symm)
  all_goals
    rw [hstats1, hstats2, hstatsS, two_mul, statsAccum_add]
    rfl

/-- Witness for the amended C2 on a concrete 2-environment world (2 divides
50). -/
theorem C2_continuity_amended_witness :
    ∃ cs1 st1 cs2 st2 csS stS,
      collectCall (unitWorld 2 (fun _ => false)) (CollectMode.stepMode 50)
          unitCollector 100 = some (cs1, st1) ∧
      collectCall (unitWorld 2 (fun _ => false)) (CollectMode.stepMode 50)
          cs1 100 = some (cs2, st2) ∧
      collectCall (unitWorld 2 (fun _ => false)) (CollectMode.stepMode 100)
          unitCollector 100 = some (csS, stS) ∧
      cs2 = csS ∧
      st1.nCollectedSteps + st2.nCollectedSteps = stS.nCollectedSteps ∧
      st1.nCollectedEpisodes + st2.nCollectedEpisodes = stS.nCollectedEpisodes ∧
      st1.episodeReturns ++ st2.episodeReturns = stS.episodeReturns ∧
      st1.episodeLens ++ st2.episodeLens = stS.episodeLens ∧
      st1.episodeStartIdxs ++ st2.episodeStartIdxs = stS.episodeStartIdxs :=
  C2_continuity_amended (unitWorld 2 (fun _ => false)) unitCollector
    (by decide) (by decide)

/-- C8: a step-count-mode call persists the final per-slot observation, info
and hidden state of its loop into the `_pre_collect` fields (so the next call
resumes from them), whereas an episode-count-mode call ends by resetting all
environments: its resulting pre-collect observation, info, hidden state and
environment states are the fresh reset values, independent of anything that
happened during the call, so no per-slot state survives it. -/
theorem C8_state_persistence {E O I A H LO LG : Type}
    (w : World E O I A H LO LG) (cs : CollectorState E O I A H LO LG)
    (n m fuel : Nat)
    (h1 : (runLoop w (CollectMode.stepMode n) fuel
      (initLoopState cs (List.range w.numEnvs))).isSome = true) :
    collectCall w (CollectMode.stepMode n) cs fuel =
      some (persistedAfter ((runLoop w (CollectMode.stepMode n) fuel
          (initLoopState cs (List.range w.numEnvs))).get h1),
        statsOf ((runLoop w (CollectMode.stepMode n) fuel
          (initLoopState cs (List.range w.numEnvs))).get h1)) ∧
    (∀ r, collectCall w (CollectMode.episodeMode m) cs fuel = some r →
      r.1.preObs = (fun i => (w.envReset i).obs) ∧
      r.1.preInfo = (fun i => (w.envReset i).info) ∧
      r.1.preHidden = (fun _ => none) ∧
      r.1.envs = (fun i => (w.envReset i).env)) := by
  constructor
  · exact collectCall_stepMode_eq w n fuel cs _ (Option.some_get h1).symm
  · intro r hr
    simp only [collectCall] at hr
    rcases hrun : runLoop w (CollectMode.episodeMode m) fuel
        (initLoopState cs (List.range (min w.numEnvs m))) with _ | s
    · rw [hrun] at hr
      simp at hr
    · rw [hrun] at hr
      simp only [Option.some.injEq] at hr
      rw [← hr]
      exact ⟨rfl, rfl, rfl, rfl⟩

/-- The step-mode loop of the C8 witness terminates. -/
theorem c8auxLoop :
    (runLoop (unitWorld 4 (fun _ => true)) (CollectMode.stepMode 2) 10
      (initLoopState unitCollector
        (List.range (unitWorld 4 (fun _ => true)).numEnvs))).isSome = true := by
  decide

/-- Witness for C8 on a concrete world in which every slot completes an
episode on every step, with a 2-step call and a 1-episode call. -/
theorem C8_state_persistence_witness :
    collectCall (unitWorld 4 (fun _ => true)) (CollectMode.stepMode 2)
        unitCollector 10 =
      some (persistedAfter ((runLoop (unitWorld 4 (fun _ => true))
          (CollectMode.stepMode 2) 10 (initLoopState unitCollector
            (List.range (unitWorld 4 (fun _ => true)).numEnvs))).get c8auxLoop),
        statsOf ((runLoop (unitWorld 4 (fun _ => true))
          (CollectMode.stepMode 2) 10 (initLoopState unitCollector
            (List.range (unitWorld 4 (fun _ => true)).numEnvs))).get c8auxLoop)) ∧
    (∀ r, collectCall (unitWorld 4 (fun _ => true)) (CollectMode.episodeMode 1)
        unitCollector 10 = some r →
      r.1.preObs = (fun i => ((unitWorld 4 (fun _ => true)).envReset i).obs) ∧
      r.1.preInfo = (fun i => ((unitWorld 4 (fun _ => true)).envReset i).info) ∧
      r.1.preHidden = (fun _ => none) ∧
      r.1.envs = (fun i => ((unitWorld 4 (fun _ => true)).envReset i).env)) :=
  C8_state_persistence (unitWorld 4 (fun _ => true)) unitCollector 2 1 10
    c8auxLoop

/-- A slot's iteration row records that slot. -/
theorem doSlot_slot {E O I A H LO LG : Type} (w : World E O I A H LO LG)
    (c : CoreState E O I A H LO LG) (i : Nat) : (doSlot w c i).slot = i := rfl

/-- The done rows' slot ids are the ready ids whose slot finished. -/
theorem rows_done_slots {E O I A H LO LG : Type} (w : World E O I A H LO LG)
    (c : CoreState E O I A H LO LG) (l : List Nat) :
    ((l.map (doSlot w c)).filter (fun r => r.done)).map (fun r => r.slot) =
      l.filter (fun i => (doSlot w c i).done) := by
  induction l with
  | nil => rfl
  | cons a l ih =>
    by_cases h : (doSlot w c a).done <;>
      simp [List.filter_cons, h, ih, doSlot_slot]

/-- The finished slot ids of an iteration are the ready ids whose slot
finished, in ready order. -/
theorem iterDoneIds_eq_filter {E O I A H LO LG : Type}
    (w : World E O I A H LO LG) (c : CoreState E O I A H LO LG) :
    iterDoneIds w c = c.readyIds.filter (fun i => (doSlot w c i).done) :=
  rows_done_slots w c c.readyIds

/-- The finished slot ids form a sublist of the ready ids. -/
theorem iterDoneIds_sublist {E O I A H LO LG : Type}
    (w : World E O I A H LO LG) (c : CoreState E O I A H LO LG) :
    (iterDoneIds w c).Sublist c.readyIds := by
  rw [iterDoneIds_eq_filter]
  exact List.filter_sublist c.readyIds

/-- Removing a duplicate-free sublist by filtering removes exactly its
length. -/
theorem length_filter_not_mem_sublist {l r : List Nat} (h : r.Sublist l)
    (hnd : l.Nodup) :
    (l.filter (fun i => decide (i ∉ r))).length + r.length = l.length := by
  induction h with
  | slnil => rfl
  | @cons l₁ l₂ a h ih =>
    rcases hnd with _ | ⟨hna, hnd⟩
    have ha : a ∉ l₁ := fun hal => by
      have := h.subset hal
      exact absurd rfl (hna a this)
    have hfa : (fun i => decide (i ∉ l₁)) a = true := by
      simpa using ha
    simp only [List.filter_cons, hfa, if_pos, List.length_cons]
    have := ih hnd
    omega
  | @cons₂ l₁ l₂ a h ih =>
    rcases hnd with _ | ⟨hna, hnd⟩
    have ha2 : a ∉ l₂ := fun hal => absurd rfl (hna a hal)
    have hfa : (fun i => decide (i ∉ a :: l₁)) a = false := by simp
    have hcongr : l₂.filter (fun i => decide (i ∉ a :: l₁)) =
        l₂.filter (fun i => decide (i ∉ l₁)) := by
      apply List.filter_congr
      intro x hx
      have hxa : x ≠ a := fun hxe => ha2 (hxe ▸ hx)
      simp [hxa]
    simp only [List.filter_cons, hfa, List.length_cons]
    rw [if_neg (by simp), hcongr]
    have := ih hnd
    omega

/-- Strictly sorted lists are duplicate-free. -/
theorem pairwise_lt_nodup {l : List Nat} (h : l.Pairwise (· < ·)) : l.Nodup :=
  h.imp Nat.ne_of_lt

/-- The episode-count-mode ready set after one iteration: the collector
filters out the first `surplus` finished slots, where the surplus is the
ready-set size plus the updated episode count minus the target (and zero when
that would be negative). -/
theorem stepOnce_episode_ready {E O I A H LO LG : Type}
    (w : World E O I A H LO LG) (nEp : Nat) (s : LoopState E O I A H LO LG) :
    (stepOnce w (CollectMode.episodeMode nEp) s).core.readyIds =
      s.core.readyIds.filter (fun i => decide (i ∉
        (iterDoneIds w s.core).take
          (s.core.readyIds.length +
            (s.collectedEpisodes + (iterDoneIds w s.core).length) - nEp))) := by
  have hlen : (iterDoneIds w s.core).length =
      ((iterOnce w s.core).rows.filter (fun r => r.done)).length := by
    unfold iterDoneIds iterDoneRows
    simp
  simp only [stepOnce]
  split_ifs with hd hs
  · -- positive surplus: the filtered ready set
    have hready : (iterOnce w s.core).core.readyIds = s.core.readyIds :=
      coreNext_readyIds w s.core
    have htonat : ((s.core.readyIds.length : Int) -
        ((nEp : Int) - ((s.collectedEpisodes +
          ((iterOnce w s.core).rows.filter (fun r => r.done)).length : Nat) : Int))).toNat =
        s.core.readyIds.length +
          (s.collectedEpisodes + (iterDoneIds w s.core).length) - nEp := by
      rw [hlen]
      push_cast
      omega
    show ((iterOnce w s.core).core.readyIds.filter _) = _
    rw [hready]
    congr 1
    funext i
    congr 2
    rw [← htonat]
    congr 1
  · -- episodes finished but no surplus: the ready set is unchanged
    have hready : (iterOnce w s.core).core.readyIds = s.core.readyIds :=
      coreNext_readyIds w s.core
    rw [hready]
    have hzero : s.core.readyIds.length +
        (s.collectedEpisodes + (iterDoneIds w s.core).length) - nEp = 0 := by
      rw [hlen]
      push_cast at hs
      omega
    rw [hzero]
    simp
  · -- no episodes finished: the ready set is unchanged
    have hready : (iterOnce w s.core).core.readyIds = s.core.readyIds :=
      coreNext_readyIds w s.core
    rw [hready]
    have hd0 : ((iterOnce w s.core).rows.filter (fun r => r.done)).length = 0 := by
      omega
    have hnil : iterDoneIds w s.core = [] := by
      have := hlen.trans hd0
      exact List.eq_nil_of_length_eq_zero this
    rw [hnil]
    simp

/-- Episode accounting of one iteration, in either mode. -/
theorem stepOnce_collected {E O I A H LO LG : Type} (w : World E O I A H LO LG)
    (mode : CollectMode) (s : LoopState E O I A H LO LG) :
    (stepOnce w mode s).collectedEpisodes =
      s.collectedEpisodes + (iterDoneIds w s.core).length := by
  cases mode <;> simp [stepOnce, iterDoneIds, iterDoneRows]

/-- Under the reachability invariant (strictly sorted ready ids whose count
plus the collected episodes does not exceed the target), the episode-mode
trimming removes exactly the surplus count of slots. -/
theorem stepOnce_episode_ready_length {E O I A H LO LG : Type}
    (w : World E O I A H LO LG) (nEp : Nat) (s : LoopState E O I A H LO LG)
    (hsort : s.core.readyIds.Pairwise (· < ·))
    (hquota : s.core.readyIds.length + s.collectedEpisodes ≤ nEp) :
    (stepOnce w (CollectMode.episodeMode nEp) s).core.readyIds.length +
      (s.core.readyIds.length +
        (s.collectedEpisodes + (iterDoneIds w s.core).length) - nEp) =
      s.core.readyIds.length := by
  rw [stepOnce_episode_ready]
  have hrem : ((iterDoneIds w s.core).take
      (s.core.readyIds.length +
        (s.collectedEpisodes + (iterDoneIds w s.core).length) - nEp)).Sublist
      s.core.readyIds :=
    (List.take_sublist _ _).trans (iterDoneIds_sublist w s.core)
  have hlen := length_filter_not_mem_sublist hrem (pairwise_lt_nodup hsort)
  have htake := List.length_take
    (s.core.readyIds.length +
      (s.collectedEpisodes + (iterDoneIds w s.core).length) - nEp)
    (iterDoneIds w s.core)
  have hD : (iterDoneIds w s.core).length ≤ s.core.readyIds.length :=
    (iterDoneIds_sublist w s.core).length_le
  omega

/-- When an episode-count-mode loop run from an invariant-satisfying state
breaks, the ready set has been emptied: on the breaking iteration every still
ready slot finishes and all of them are trimmed away. -/
theorem runLoop_episode_ready_empty {E O I A H LO LG : Type}
    (w : World E O I A H LO LG) (nEp : Nat) :
    ∀ (fuel : Nat) (s : LoopState E O I A H LO LG),
      s.core.readyIds.Pairwise (· < ·) →
      s.core.readyIds.length + s.collectedEpisodes ≤ nEp →
      ∀ s'', runLoop w (CollectMode.episodeMode nEp) fuel s = some s'' →
        s''.core.readyIds = [] := by
  intro fuel
  induction fuel with
  | zero =>
    intro s _ _ s'' h
    exact absurd h (by simp [runLoop])
  | succ fuel ih =>
    intro s hsort hquota s'' hrun
    simp only [runLoop] at hrun
    have hcoll := stepOnce_collected w (CollectMode.episodeMode nEp) s
    have hready := stepOnce_episode_ready w nEp s
    have hcount := stepOnce_episode_ready_length w nEp s hsort hquota
    have hD : (iterDoneIds w s.core).length ≤ s.core.readyIds.length :=
      (iterDoneIds_sublist w s.core).length_le
    by_cases hb : breakCond (CollectMode.episodeMode nEp)
        (stepOnce w (CollectMode.episodeMode nEp) s).stepCount
        (stepOnce w (CollectMode.episodeMode nEp) s).collectedEpisodes = true
    · -- the loop breaks: all remaining ready slots finished and were trimmed
      rw [hb] at hrun
      simp only [if_pos, Option.some.injEq] at hrun
      subst hrun
      simp only [breakCond, Bool.and_eq_true, decide_eq_true_eq] at hb
      obtain ⟨hb1, hb2⟩ := hb
      rw [hcoll] at hb2
      apply List.eq_nil_of_length_eq_zero
      omega
    · -- the loop continues: re-establish the invariant on the next state
      rw [Bool.not_eq_true] at hb
      rw [hb] at hrun
      simp only [Bool.false_eq_true, if_false] at hrun
      have hsort' :
          (stepOnce w (CollectMode.episodeMode nEp) s).core.readyIds.Pairwise
            (· < ·) := by
        rw [hready]
        exact List.Pairwise.sublist (List.filter_sublist _) hsort
      have hcont : nEp = 0 ∨
          s.collectedEpisodes + (iterDoneIds w s.core).length < nEp := by
        rcases Nat.eq_zero_or_pos nEp with h0 | hpos
        · exact Or.inl h0
        · right
          by_contra hge
          push_neg at hge
          have : breakCond (CollectMode.episodeMode nEp)
              (stepOnce w (CollectMode.episodeMode nEp) s).stepCount
              (stepOnce w (CollectMode.episodeMode nEp) s).collectedEpisodes =
              true := by
            simp only [breakCond, Bool.and_eq_true, decide_eq_true_eq]
            exact ⟨hpos, by rw [hcoll]; omega⟩
          rw [this] at hb
          exact Bool.noConfusion hb
      have hquota' :
          (stepOnce w (CollectMode.episodeMode nEp) s).core.readyIds.length +
            (stepOnce w (CollectMode.episodeMode nEp) s).collectedEpisodes ≤
            nEp := by
        rw [hcoll]
        omega
      exact ih (stepOnce w (CollectMode.episodeMode nEp) s) hsort' hquota' s'' hrun

/-- C1 amended: in episode-count mode, whenever the ready-set size exceeds
the number of episodes still needed after this iteration, the collector
removes exactly that surplus (ready-set size plus updated episode count minus
the target — not the number of just-finished slots minus the episodes still
needed) from the ready set, choosing only slots that just finished and
removing them in increasing slot-index order; slots that did not just finish
are never removed, and when the loop breaks the ready set has been emptied,
every removed slot having just contributed a full episode. -/
theorem C1_surplus_trimming {E O I A H LO LG : Type}
    (w : World E O I A H LO LG) (nEp : Nat) (s : LoopState E O I A H LO LG)
    (hsort : s.core.readyIds.Pairwise (· < ·))
    (hquota : s.core.readyIds.length + s.collectedEpisodes ≤ nEp) :
    (stepOnce w (CollectMode.episodeMode nEp) s).core.readyIds =
      s.core.readyIds.filter (fun i => decide (i ∉
        (iterDoneIds w s.core).take
          (s.core.readyIds.length +
            (s.collectedEpisodes + (iterDoneIds w s.core).length) - nEp))) ∧
    ((iterDoneIds w s.core).take
        (s.core.readyIds.length +
          (s.collectedEpisodes + (iterDoneIds w s.core).length) - nEp)).Sublist
      (iterDoneIds w s.core) ∧
    ((iterDoneIds w s.core).take
        (s.core.readyIds.length +
          (s.collectedEpisodes + (iterDoneIds w s.core).length) - nEp)).Pairwise
      (· < ·) ∧
    (iterDoneIds w s.core).Sublist s.core.readyIds ∧
    (stepOnce w (CollectMode.episodeMode nEp) s).core.readyIds.length +
      (s.core.readyIds.length +
        (s.collectedEpisodes + (iterDoneIds w s.core).length) - nEp) =
      s.core.readyIds.length ∧
    (∀ i ∈ s.core.readyIds,
      i ∉ (stepOnce w (CollectMode.episodeMode nEp) s).core.readyIds →
      i ∈ iterDoneIds w s.core) ∧
    (∀ fuel s'', runLoop w (CollectMode.episodeMode nEp) fuel s = some s'' →
      s''.core.readyIds = []) := by
  have hready := stepOnce_episode_ready w nEp s
  have htakesub : ((iterDoneIds w s.core).take
      (s.core.readyIds.length +
        (s.collectedEpisodes + (iterDoneIds w s.core).length) - nEp)).Sublist
      (iterDoneIds w s.core) := List.take_sublist _ _
  have hdonesub := iterDoneIds_sublist w s.core
  refine ⟨hready, htakesub, ?_, hdonesub, stepOnce_episode_ready_length w nEp s hsort hquota, ?_, ?_⟩
  · exact List.Pairwise.sublist (htakesub.trans hdonesub) hsort
  · intro i hi hnotin
    by_contra hnotdone
    apply hnotin
    rw [hready]
    refine List.mem_filter.mpr ⟨hi, ?_⟩
    simp only [decide_eq_true_eq]
    intro hmem
    exact hnotdone (htakesub.subset hmem)
  · intro fuel s'' hrun
    exact runLoop_episode_ready_empty w nEp fuel s hsort hquota s'' hrun

/-- Witness for the amended C1 at the initial state of an episode-count-mode
call with 4 environments and a 5-episode target. -/
theorem C1_surplus_trimming_witness :
    (stepOnce (unitWorld 4 (fun i => decide (i < 3))) (CollectMode.episodeMode 5)
        (initLoopState unitCollector (List.range (min 4 5)))).core.readyIds =
      (initLoopState unitCollector (List.range (min 4 5))).core.readyIds.filter
        (fun i => decide (i ∉
          (iterDoneIds (unitWorld 4 (fun i => decide (i < 3)))
              (initLoopState unitCollector (List.range (min 4 5))).core).take
            ((initLoopState unitCollector (List.range (min 4 5))).core.readyIds.length +
              ((initLoopState unitCollector (List.range (min 4 5))).collectedEpisodes +
                (iterDoneIds (unitWorld 4 (fun i => decide (i < 3)))
                  (initLoopState unitCollector (List.range (min 4 5))).core).length) - 5))) ∧
    ((iterDoneIds (unitWorld 4 (fun i => decide (i < 3)))
        (initLoopState unitCollector (List.range (min 4 5))).core).take
      ((initLoopState unitCollector (List.range (min 4 5))).core.readyIds.length +
        ((initLoopState unitCollector (List.range (min 4 5))).collectedEpisodes +
          (iterDoneIds (unitWorld 4 (fun i => decide (i < 3)))
            (initLoopState unitCollector (List.range (min 4 5))).core).length) - 5)).Sublist
      (iterDoneIds (unitWorld 4 (fun i => decide (i < 3)))
        (initLoopState unitCollector (List.range (min 4 5))).core) ∧
    ((iterDoneIds (unitWorld 4 (fun i => decide (i < 3)))
        (initLoopState unitCollector (List.range (min 4 5))).core).take
      ((initLoopState unitCollector (List.range (min 4 5))).core.readyIds.length +
        ((initLoopState unitCollector (List.range (min 4 5))).collectedEpisodes +
          (iterDoneIds (unitWorld 4 (fun i => decide (i < 3)))
            (initLoopState unitCollector (List.range (min 4 5))).core).length) - 5)).Pairwise
      (· < ·) ∧
    (iterDoneIds (unitWorld 4 (fun i => decide (i < 3)))
        (initLoopState unitCollector (List.range (min 4 5))).core).Sublist
      (initLoopState unitCollector (List.range (min 4 5))).core.readyIds ∧
    (stepOnce (unitWorld 4 (fun i => decide (i < 3))) (CollectMode.episodeMode 5)
        (initLoopState unitCollector (List.range (min 4 5)))).core.readyIds.length +
      ((initLoopState unitCollector (List.range (min 4 5))).core.readyIds.length +
        ((initLoopState unitCollector (List.range (min 4 5))).collectedEpisodes +
          (iterDoneIds (unitWorld 4 (fun i => decide (i < 3)))
            (initLoopState unitCollector (List.range (min 4 5))).core).length) - 5) =
      (initLoopState unitCollector (List.range (min 4 5))).core.readyIds.length ∧
    (∀ i ∈ (initLoopState unitCollector (List.range (min 4 5))).core.readyIds,
      i ∉ (stepOnce (unitWorld 4 (fun i => decide (i < 3)))
        (CollectMode.episodeMode 5)
        (initLoopState unitCollector (List.range (min 4 5)))).core.readyIds →
      i ∈ iterDoneIds (unitWorld 4 (fun i => decide (i < 3)))
        (initLoopState unitCollector (List.range (min 4 5))).core) ∧
    (∀ fuel s'', runLoop (unitWorld 4 (fun i => decide (i < 3)))
        (CollectMode.episodeMode 5) fuel
        (initLoopState unitCollector (List.range (min 4 5))) = some s'' →
      s''.core.readyIds = []) :=
  C1_surplus_trimming (unitWorld 4 (fun i => decide (i < 3))) 5
    (initLoopState unitCollector (List.range (min 4 5))) (by decide) (by decide)

/-- The shard counter after an add with a clear done flag. -/
theorem shardAddIndex_false_ctr (s : ShardCtr) (r : Int) :
    (shardAddIndex s r false).1 =
      { cap := s.cap, idx := (s.idx + 1) % s.cap, size := min (s.size + 1) s.cap,
        epRew := s.epRew + r, epLen := s.epLen + 1, epStart := s.epStart,
        closedEpisodes := s.closedEpisodes } := rfl

/-- The quadruple returned by an add with a clear done flag: the in-progress
episode totals and the unchanged episode start index. -/
theorem shardAddIndex_false_ret (s : ShardCtr) (r : Int) :
    (shardAddIndex s r false).2 =
      { ptr := s.idx, epRew := s.epRew + r, epLen := s.epLen + 1,
        epIdx := s.epStart } := rfl

/-- Reading a list at the position just written. -/
theorem getD_set_self {α : Type} (l : List α) (n : Nat) (a d : α)
    (h : n < l.length) : (l.set n a).getD n d = a := by
  have hg := List.getElem?_set_eq_of_lt (l := l) a h
  simp [List.getD, List.get?_eq_getElem?, hg]

/-- Reading a list at a position other than the one written. -/
theorem getD_set_other {α : Type} (l : List α) (m n : Nat) (a d : α)
    (h : m ≠ n) : (l.set m a).getD n d = l.getD n d := by
  have hg := List.getElem?_set_ne (l := l) (a := a) h
  simp [List.getD, List.get?_eq_getElem?, hg]

/-- Appending one pair to a history extends exactly its target shard's row
sequence. -/
theorem shardSeq_append_one (hist : List (Nat × KBEntry)) (b0 b : Nat)
    (e : KBEntry) :
    shardSeq (hist ++ [(b0, e)]) b =
      shardSeq hist b ++ if b0 = b then [e] else [] := by
  by_cases h : b0 = b <;> simp [shardSeq, List.filter_append, h]

/-- Appending one pair to a history extends the write indices of exactly its
trajectory and shard, with the new global index. -/
theorem trajWriteIdxs_append_one (cap : Nat) (hist : List (Nat × KBEntry))
    (tid b b0 : Nat) (e : KBEntry) :
    trajWriteIdxs cap (hist ++ [(b0, e)]) tid b =
      trajWriteIdxs cap hist tid b ++
        if b0 = b ∧ e.trajId = tid
        then [b * cap + (shardSeq hist b).length % cap] else [] := by
  by_cases hb : b0 = b
  · subst hb
    rw [trajWriteIdxs, trajWriteIdxs, shardSeq_append_one, if_pos rfl,
      List.enum_append, List.filter_append, List.map_append]
    congr 1
    by_cases ht : e.trajId = tid <;> simp [List.enumFrom, ht]
  · simp [trajWriteIdxs, shardSeq_append_one, hb]

/-- Bounds of an extended write-index list: the last bound moves to the new
index, the first bound is the old first (or the new index if this is the
first write). -/
theorem boundsOf_append_one (ws : List Nat) (g : Nat) :
    boundsOf (ws ++ [g]) = some (ws.headD g, g) := by
  cases ws with
  | nil => rfl
  | cons a l =>
    have h1 : (a :: (l ++ [g])).getLast? = some g := by
      rw [← List.cons_append]
      exact List.getLast?_concat _
    simp [boundsOf, h1]

/-- A `some` bound decomposes into the head and last of the write indices. -/
theorem boundsOf_eq_some {ws : List Nat} {f l : Nat}
    (h : boundsOf ws = some (f, l)) :
    ws.head? = some f ∧ ws.getLast? = some l := by
  unfold boundsOf at h
  rcases hh : ws.head? with _ | x <;> rcases hl : ws.getLast? with _ | y <;>
    rw [hh, hl] at h <;> simp_all

/-- Empty bounds mean no writes. -/
theorem boundsOf_eq_none {ws : List Nat} : boundsOf ws = none ↔ ws = [] := by
  cases ws with
  | nil => simp [boundsOf]
  | cons a l =>
    have h1 : (a :: l).getLast? ≠ none := by
      cases l with
      | nil => simp
      | cons b t => simp [List.getLast?]
    constructor
    · intro h
      unfold boundsOf at h
      rcases hl : (a :: l).getLast? with _ | y
      · exact absurd hl h1
      · rw [hl] at h
        simp at h
    · intro h
      exact absurd h (by simp)

/-- Storing a row makes it the row looked up under its key. -/
theorem lookup_metaStore_self (m : List (Nat × List (Option (Nat × Nat))))
    (tid : Nat) (row : List (Option (Nat × Nat))) :
    (metaStore m tid row).lookup tid = some row := by
  induction m with
  | nil => simp [metaStore, List.lookup]
  | cons kv rest ih =>
    obtain ⟨k, r⟩ := kv
    by_cases h : k = tid
    · subst h
      simp [metaStore, List.lookup]
    · have hbeq : (tid == k) = false := beq_eq_false_iff_ne.mpr (Ne.symm h)
      simp [metaStore, h, List.lookup, ih, hbeq]

/-- Storing a row leaves every other key's lookup unchanged. -/
theorem lookup_metaStore_ne (m : List (Nat × List (Option (Nat × Nat))))
    (tid tid' : Nat) (row : List (Option (Nat × Nat))) (h : tid' ≠ tid) :
    (metaStore m tid row).lookup tid' = m.lookup tid' := by
  have hbeq : (tid' == tid) = false := beq_eq_false_iff_ne.mpr h
  induction m with
  | nil => simp [metaStore, List.lookup, hbeq]
  | cons kv rest ih =>
    obtain ⟨k, r⟩ := kv
    by_cases hk : k = tid
    · subst hk
      simp [metaStore, List.lookup, hbeq]
    · rcases htid : (tid' == k) with _ | _ <;>
        simp [metaStore, hk, List.lookup, htid, ih]

/-- Offsets are multiples of the uniform capacity. -/
theorem kbOffset_eq (kb : KBState) (cap b : Nat)
    (hcaps : ∀ sh ∈ kb.shards, sh.ctr.cap = cap) (hb : b ≤ kb.shards.length) :
    kbOffset kb b = b * cap := by
  unfold kbOffset
  have hmap : (kb.shards.take b).map (fun s => s.ctr.cap) =
      List.replicate b cap := by
    rw [List.eq_replicate_iff]
    constructor
    · simp [List.length_take]
      omega
    · intro x hx
      obtain ⟨sh, hsh, hcapx⟩ := List.mem_map.mp hx
      exact hcapx ▸ hcaps sh (List.mem_of_mem_take hsh)
  rw [hmap, List.sum_replicate, smul_eq_mul]

/-- Reading a replicated list inside its range. -/
theorem getD_replicate_lt {α : Type} {n b : Nat} (x d : α) (h : b < n) :
    (List.replicate n x).getD b d = x := by
  simp [List.getD, List.get?_eq_getElem?, List.getElem?_replicate, h]

/-- Reading a replicated list of `none` never yields a value. -/
theorem getD_replicate_none {α : Type} (n b : Nat) :
    (List.replicate n (none : Option α)).getD b none = none := by
  rcases h : (List.replicate n (none : Option α)).get? b with _ | x
  · simp [List.getD, h]
  · have hx := List.get?_mem h
    rw [List.eq_of_mem_replicate hx] at h
    simp [List.getD, h]

/-- The shard accessor agrees with `get` inside the range. -/
theorem kbShardAt_eq_get (kb : KBState) (b : Nat) (h : b < kb.shards.length) :
    kbShardAt kb b = kb.shards.get ⟨b, h⟩ := by
  simp [kbShardAt, List.getD, List.get?_eq_getElem?, List.getElem?_eq_getElem h]

/-- The shard accessor yields a member of the shard list inside the range. -/
theorem kbShardAt_mem (kb : KBState) (b : Nat) (h : b < kb.shards.length) :
    kbShardAt kb b ∈ kb.shards := by
  rw [kbShardAt_eq_get kb b h]
  exact List.get_mem kb.shards _ _

/-- Shards of a knowledge base after one in-range add. -/
theorem kbAddOne_shards_of_lt (kb : KBState) (b0 : Nat) (e : KBEntry)
    (h : b0 < kb.shards.length) :
    (kbAddOne kb (b0, e)).shards = kb.shards.set b0
      { ctr := (shardAddIndex (kbShardAt kb b0).ctr e.rew false).1,
        data := (kbShardAt kb b0).data.set
          (shardAddIndex (kbShardAt kb b0).ctr e.rew false).2.ptr e } := by
  simp only [kbAddOne]
  rw [if_pos h]

/-- Trajectory metadata of a knowledge base after one in-range add. -/
theorem kbAddOne_trajMeta_of_lt (kb : KBState) (b0 : Nat) (e : KBEntry)
    (h : b0 < kb.shards.length) :
    (kbAddOne kb (b0, e)).trajMeta =
      metaStore kb.trajMeta e.trajId
        ((match kb.trajMeta.lookup e.trajId with
          | none => List.replicate kb.shards.length none
          | some r => r).set b0
          (some (match (match kb.trajMeta.lookup e.trajId with
              | none => List.replicate kb.shards.length none
              | some r => r).getD b0 none with
            | none => ((shardAddIndex (kbShardAt kb b0).ctr e.rew false).2.ptr +
                kbOffset kb b0,
                (shardAddIndex (kbShardAt kb b0).ctr e.rew false).2.ptr +
                kbOffset kb b0)
            | some fl => (fl.1,
                (shardAddIndex (kbShardAt kb b0).ctr e.rew false).2.ptr +
                kbOffset kb b0)))) := by
  simp only [kbAddOne]
  rw [if_pos h]

/-- The per-trajectory row `KnowledgeBaseManager.add` starts from: the
existing row, or a fresh all-`None` row of one entry per shard. -/
theorem kb_row_getD (kb : KBState) (tid b : Nat) :
    ((match kb.trajMeta.lookup tid with
      | none => List.replicate kb.shards.length none
      | some r => r).getD b none) = metaLookup kb tid b := by
  rcases hl : kb.trajMeta.lookup tid with _ | r
  · simp only [metaLookup, hl]
    exact getD_replicate_none _ _
  · simp only [metaLookup, hl]

/-- The row `KnowledgeBaseManager.add` starts from has one entry per
shard. -/
theorem kb_row_length (kb : KBState) (n : Nat) (tid : Nat)
    (hlen : kb.shards.length = n)
    (hrowlen : ∀ t row, kb.trajMeta.lookup t = some row → row.length = n) :
    (match kb.trajMeta.lookup tid with
      | none => List.replicate kb.shards.length none
      | some r => r).length = n := by
  rcases hl : kb.trajMeta.lookup tid with _ | r
  · simp [hlen]
  · exact hrowlen tid r hl

/-- One in-range add preserves the knowledge-base invariant, extending the
history by its pair. -/
theorem kbInv_step {n cap : Nat} {hist : List (Nat × KBEntry)} {kb : KBState}
    (inv : KBInv n cap hist kb) (b0 : Nat) (e : KBEntry) (hb : b0 < n) :
    KBInv n cap (hist ++ [(b0, e)]) (kbAddOne kb (b0, e)) := by
  have hblen : b0 < kb.shards.length := by rw [inv.len]; exact hb
  have hsh := kbAddOne_shards_of_lt kb b0 e hblen
  have hmeta := kbAddOne_trajMeta_of_lt kb b0 e hblen
  have hcapb : (kbShardAt kb b0).ctr.cap = cap :=
    inv.caps _ (kbShardAt_mem kb b0 hblen)
  have hgval : (shardAddIndex (kbShardAt kb b0).ctr e.rew false).2.ptr +
      kbOffset kb b0 = b0 * cap + (shardSeq hist b0).length % cap := by
    have hptr : (shardAddIndex (kbShardAt kb b0).ctr e.rew false).2.ptr =
        (kbShardAt kb b0).ctr.idx := rfl
    rw [hptr, kbOffset_eq kb cap b0 inv.caps (le_of_lt hblen), inv.widx b0 hb]
    omega
  set row0 := (match kb.trajMeta.lookup e.trajId with
      | none => List.replicate kb.shards.length none
      | some r => r) with hrow0def
  set gnew := (shardAddIndex (kbShardAt kb b0).ctr e.rew false).2.ptr +
      kbOffset kb b0 with hgnewdef
  set seg0 := (match row0.getD b0 none with
      | none => (gnew, gnew)
      | some fl => (fl.1, gnew)) with hseg0def
  have hrowl : row0.length = n := kb_row_length kb n e.trajId inv.len inv.rowlen
  have hrowg : ∀ b, row0.getD b none = metaLookup kb e.trajId b :=
    fun b => kb_row_getD kb e.trajId b
  have hAtSame : kbShardAt (kbAddOne kb (b0, e)) b0 =
      { ctr := (shardAddIndex (kbShardAt kb b0).ctr e.rew false).1,
        data := (kbShardAt kb b0).data.set
          (shardAddIndex (kbShardAt kb b0).ctr e.rew false).2.ptr e } := by
    unfold kbShardAt
    rw [hsh]
    exact getD_set_self _ _ _ _ hblen
  have hAtOther : ∀ b, b ≠ b0 → kbShardAt (kbAddOne kb (b0, e)) b =
      kbShardAt kb b := by
    intro b hbb
    unfold kbShardAt
    rw [hsh]
    exact getD_set_other _ _ _ _ _ (Ne.symm hbb)
  have hseqSame : shardSeq (hist ++ [(b0, e)]) b0 = shardSeq hist b0 ++ [e] := by
    rw [shardSeq_append_one, if_pos rfl]
  have hseqOther : ∀ b, b ≠ b0 → shardSeq (hist ++ [(b0, e)]) b =
      shardSeq hist b := by
    intro b hbb
    rw [shardSeq_append_one, if_neg (fun h => hbb h.symm), List.append_nil]
  refine ⟨?_, ?_, ?_, ?_, ?_, ?_, ?_, ?_, ?_, ?_⟩
  · -- len
    rw [hsh, List.length_set]
    exact inv.len
  · -- caps
    intro sh hshm
    rw [hsh] at hshm
    rcases List.mem_or_eq_of_mem_set hshm with hold | hnew
    · exact inv.caps sh hold
    · rw [hnew, shardAddIndex_false_ctr]
      exact hcapb
  · -- write index
    intro b hbn
    by_cases hbb : b = b0
    · subst hbb
      rw [hAtSame, shardAddIndex_false_ctr]
      show ((kbShardAt kb b).ctr.idx + 1) % (kbShardAt kb b).ctr.cap = _
      rw [hcapb, inv.widx b hbn, hseqSame, List.length_append, Nat.mod_add_mod]
      rfl
    · rw [hAtOther b hbb, hseqOther b hbb]
      exact inv.widx b hbn
  · -- valid count
    intro b hbn
    by_cases hbb : b = b0
    · subst hbb
      rw [hAtSame, shardAddIndex_false_ctr]
      show min ((kbShardAt kb b).ctr.size + 1) (kbShardAt kb b).ctr.cap = _
      rw [hcapb, inv.wsize b hbn, hseqSame]
      simp only [List.length_append, List.length_singleton]
      omega
    · rw [hAtOther b hbb, hseqOther b hbb]
      exact inv.wsize b hbn
  · -- no closed episodes
    intro b hbn
    by_cases hbb : b = b0
    · subst hbb
      rw [hAtSame, shardAddIndex_false_ctr]
      exact inv.closed b hbn
    · rw [hAtOther b hbb]
      exact inv.closed b hbn
  · -- episode start index
    intro b hbn
    by_cases hbb : b = b0
    · subst hbb
      rw [hAtSame, shardAddIndex_false_ctr]
      exact inv.estart b hbn
    · rw [hAtOther b hbb]
      exact inv.estart b hbn
  · -- episode length accumulator
    intro b hbn
    by_cases hbb : b = b0
    · subst hbb
      rw [hAtSame, shardAddIndex_false_ctr]
      show (kbShardAt kb b).ctr.epLen + 1 = _
      rw [inv.elen b hbn, hseqSame]
      simp
    · rw [hAtOther b hbb, hseqOther b hbb]
      exact inv.elen b hbn
  · -- trajectory bounds
    intro tid b hbn
    by_cases ht : tid = e.trajId
    · rw [ht]
      have hlookNew : (kbAddOne kb (b0, e)).trajMeta.lookup e.trajId =
          some (row0.set b0 (some seg0)) := by
        rw [hmeta]
        exact lookup_metaStore_self _ _ _
      by_cases hbb : b = b0
      · subst hbb
        have hget : (row0.set b (some seg0)).getD b none = some seg0 :=
          getD_set_self _ _ _ _ (by rw [hrowl]; exact hbn)
        rw [metaLookup, hlookNew]
        show (row0.set b (some seg0)).getD b none = _
        rw [hget, trajWriteIdxs_append_one, if_pos ⟨rfl, rfl⟩,
          boundsOf_append_one]
        rw [hseg0def, hrowg b, inv.meta e.trajId b hbn]
        rcases hbo : boundsOf (trajWriteIdxs cap hist e.trajId b) with _ | fl
        · have hnil := boundsOf_eq_none.mp hbo
          rw [hnil, hgval]
          simp [List.headD]
        · obtain ⟨hhead, -⟩ := boundsOf_eq_some hbo
          rw [List.headD_eq_head?_getD, hhead, hgval]
          simp
      · have hget : (row0.set b0 (some seg0)).getD b none = row0.getD b none :=
          getD_set_other _ _ _ _ _ (Ne.symm hbb)
        rw [metaLookup, hlookNew]
        show (row0.set b0 (some seg0)).getD b none = _
        rw [hget, hrowg b, inv.meta e.trajId b hbn, trajWriteIdxs_append_one,
          if_neg (fun h => hbb h.1.symm), List.append_nil]
    · have hlookNew : (kbAddOne kb (b0, e)).trajMeta.lookup tid =
          kb.trajMeta.lookup tid := by
        rw [hmeta]
        exact lookup_metaStore_ne _ _ _ _ ht
      rw [metaLookup, hlookNew]
      show metaLookup kb tid b = _
      rw [inv.meta tid b hbn, trajWriteIdxs_append_one,
        if_neg (fun h => ht h.2.symm), List.append_nil]
  · -- unseen identifiers
    intro tid
    by_cases ht : tid = e.trajId
    · subst ht
      constructor
      · intro hnone
        rw [hmeta, lookup_metaStore_self] at hnone
        exact (Option.some_ne_none _ hnone).elim
      · intro hall
        exact absurd rfl (hall (b0, e) (by simp))
    · have hlookNew : (kbAddOne kb (b0, e)).trajMeta.lookup tid =
          kb.trajMeta.lookup tid := by
        rw [hmeta]
        exact lookup_metaStore_ne _ _ _ _ ht
      rw [hlookNew, inv.unseen tid]
      constructor
      · intro hall p hp
        rcases List.mem_append.mp hp with h1 | h2
        · exact hall p h1
        · rw [List.mem_singleton.mp h2]
          exact fun hh => ht hh.symm
      · intro hall p hp
        exact hall p (List.mem_append_left _ hp)
  · -- row lengths
    intro tid r hr
    by_cases ht : tid = e.trajId
    · subst ht
      rw [hmeta, lookup_metaStore_self] at hr
      rw [← Option.some.inj hr, List.length_set]
      exact hrowl
    · rw [hmeta, lookup_metaStore_ne _ _ _ _ ht] at hr
      exact inv.rowlen tid r hr

/-- The knowledge-base invariant holds after replaying any valid history of
adds on a fresh vectorised knowledge base. -/
theorem kb_invariant (n cap : Nat) :
    ∀ (hist : List (Nat × KBEntry)), (∀ p ∈ hist, p.1 < n) →
      KBInv n cap hist (kbAddFlat (kbInit n cap) hist) := by
  intro hist
  induction hist using List.reverseRecOn with
  | nil =>
    intro _
    refine ⟨?_, ?_, ?_, ?_, ?_, ?_, ?_, ?_, ?_, ?_⟩
    · simp [kbAddFlat, kbInit]
    · intro sh hsh
      have hsh' : sh ∈ List.replicate n
          ({ ctr := shardCtrInit cap,
             data := List.replicate cap kbEntryZero } : KBShard) := by
        simpa [kbAddFlat, kbInit] using hsh
      rw [List.eq_of_mem_replicate hsh']
      rfl
    · intro b hb
      show (kbShardAt (kbInit n cap) b).ctr.idx = _
      rw [kbInit, kbShardAt]
      simp only [getD_replicate_lt _ _ hb]
      simp [shardCtrInit, shardSeq]
    · intro b hb
      show (kbShardAt (kbInit n cap) b).ctr.size = _
      rw [kbInit, kbShardAt]
      simp only [getD_replicate_lt _ _ hb]
      simp [shardCtrInit, shardSeq]
    · intro b hb
      show (kbShardAt (kbInit n cap) b).ctr.closedEpisodes = 0
      rw [kbInit, kbShardAt]
      simp only [getD_replicate_lt _ _ hb]
      rfl
    · intro b hb
      show (kbShardAt (kbInit n cap) b).ctr.epStart = 0
      rw [kbInit, kbShardAt]
      simp only [getD_replicate_lt _ _ hb]
      rfl
    · intro b hb
      show (kbShardAt (kbInit n cap) b).ctr.epLen = _
      rw [kbInit, kbShardAt]
      simp only [getD_replicate_lt _ _ hb]
      simp [shardCtrInit, shardSeq]
    · intro tid b _
      rfl
    · intro tid
      simp [kbAddFlat, kbInit, List.lookup]
    · intro tid r hr
      simp [kbAddFlat, kbInit, List.lookup] at hr
  | append_singleton hist p ih =>
    intro hvalid
    obtain ⟨b0, e⟩ := p
    have hv : ∀ q ∈ hist, q.1 < n :=
      fun q hq => hvalid q (List.mem_append_left _ hq)
    have hb : b0 < n := hvalid (b0, e) (List.mem_append_right _ (by simp))
    have hfold : kbAddFlat (kbInit n cap) (hist ++ [(b0, e)]) =
        kbAddOne (kbAddFlat (kbInit n cap) hist) (b0, e) := by
      simp [kbAddFlat]
    rw [hfold]
    exact kbInv_step (ih hv) b0 e hb

/-- C7: after every add, the recorded `(first, last)` pair of each
`(trajectory, shard)` equals the bounds of the global indices at which that
trajectory was written into that shard: `first` is the index of the first
such write (so it never changes on later adds, the history only growing on
the right) and `last` is the index of the most recent one. -/
theorem C7_trajectory_bounds (n cap : Nat) (hist : List (Nat × KBEntry))
    (hvalid : ∀ p ∈ hist, p.1 < n) (tid b : Nat) (hb : b < n) :
    metaLookup (kbAddFlat (kbInit n cap) hist) tid b =
      boundsOf (trajWriteIdxs cap hist tid b) ∧
    (∀ f l, metaLookup (kbAddFlat (kbInit n cap) hist) tid b = some (f, l) →
      (trajWriteIdxs cap hist tid b).head? = some f ∧
      (trajWriteIdxs cap hist tid b).getLast? = some l) := by
  have inv := kb_invariant n cap hist hvalid
  refine ⟨inv.meta tid b hb, ?_⟩
  intro f l hfl
  rw [inv.meta tid b hb] at hfl
  exact boundsOf_eq_some hfl

/-- Witness for C7 on a concrete history writing trajectory 7 twice into
shard 0 and once into shard 1. -/
theorem C7_trajectory_bounds_witness :
    metaLookup (kbAddFlat (kbInit 2 3)
        [(0, ⟨1, 2, 3, 7⟩), (1, ⟨4, 5, 6, 7⟩), (0, ⟨8, 9, 10, 7⟩)]) 7 0 =
      boundsOf (trajWriteIdxs 3
        [(0, ⟨1, 2, 3, 7⟩), (1, ⟨4, 5, 6, 7⟩), (0, ⟨8, 9, 10, 7⟩)] 7 0) ∧
    (∀ f l, metaLookup (kbAddFlat (kbInit 2 3)
        [(0, ⟨1, 2, 3, 7⟩), (1, ⟨4, 5, 6, 7⟩), (0, ⟨8, 9, 10, 7⟩)]) 7 0 =
        some (f, l) →
      (trajWriteIdxs 3
        [(0, ⟨1, 2, 3, 7⟩), (1, ⟨4, 5, 6, 7⟩), (0, ⟨8, 9, 10, 7⟩)] 7 0).head? =
        some f ∧
      (trajWriteIdxs 3
        [(0, ⟨1, 2, 3, 7⟩), (1, ⟨4, 5, 6, 7⟩), (0, ⟨8, 9, 10, 7⟩)] 7 0).getLast? =
        some l) :=
  C7_trajectory_bounds 2 3
    [(0, ⟨1, 2, 3, 7⟩), (1, ⟨4, 5, 6, 7⟩), (0, ⟨8, 9, 10, 7⟩)]
    (by decide) 7 0 (by decide)

/-- C10: every `KnowledgeBaseManager.add` advances the target shard's write
index with the done flag forced to false, so after any history no shard has
ever closed an episode (its episode accumulators were never snapshot-reset,
the episode start index is still the initial 0, and the episode length
accumulator counts every row ever added), and the bookkeeping quadruple
returned for the next add carries the in-progress totals — its
episode start index 0 and its length one more than the adds so far — never a
completed episode's. -/
theorem C10_done_forced_false (n cap : Nat) (hist : List (Nat × KBEntry))
    (hvalid : ∀ p ∈ hist, p.1 < n) (b : Nat) (hb : b < n) :
    (kbShardAt (kbAddFlat (kbInit n cap) hist) b).ctr.closedEpisodes = 0 ∧
    (kbShardAt (kbAddFlat (kbInit n cap) hist) b).ctr.epStart = 0 ∧
    (kbShardAt (kbAddFlat (kbInit n cap) hist) b).ctr.epLen =
      (shardSeq hist b).length ∧
    (kbShardAt (kbAddFlat (kbInit n cap) hist) b).ctr.idx =
      (shardSeq hist b).length % cap ∧
    (∀ e ret, kbAddRet (kbAddFlat (kbInit n cap) hist) (b, e) = some ret →
      ret.epIdx = 0 ∧ ret.epLen = (shardSeq hist b).length + 1 ∧
      ret.ptr = (shardSeq hist b).length % cap) := by
  have inv := kb_invariant n cap hist hvalid
  have hblen : b < (kbAddFlat (kbInit n cap) hist).shards.length := by
    rw [inv.len]; exact hb
  refine ⟨inv.closed b hb, inv.estart b hb, inv.elen b hb, inv.widx b hb, ?_⟩
  intro e ret hret
  have hget : (kbAddFlat (kbInit n cap) hist).shards.get? b =
      some (kbShardAt (kbAddFlat (kbInit n cap) hist) b) := by
    rw [kbShardAt_eq_get _ b hblen]
    exact List.get?_eq_get hblen
  rw [kbAddRet] at hret
  rw [hget] at hret
  simp only [Option.some.injEq] at hret
  rw [← hret, shardAddIndex_false_ret]
  refine ⟨inv.estart b hb, ?_, ?_⟩
  · show (kbShardAt (kbAddFlat (kbInit n cap) hist) b).ctr.epLen + 1 = _
    rw [inv.elen b hb]
  · exact inv.widx b hb

/-- Witness for C10 on the same concrete history, shard 0. -/
theorem C10_done_forced_false_witness :
    (kbShardAt (kbAddFlat (kbInit 2 3)
        [(0, ⟨1, 2, 3, 7⟩), (1, ⟨4, 5, 6, 7⟩), (0, ⟨8, 9, 10, 7⟩)]) 0).ctr.closedEpisodes = 0 ∧
    (kbShardAt (kbAddFlat (kbInit 2 3)
        [(0, ⟨1, 2, 3, 7⟩), (1, ⟨4, 5, 6, 7⟩), (0, ⟨8, 9, 10, 7⟩)]) 0).ctr.epStart = 0 ∧
    (kbShardAt (kbAddFlat (kbInit 2 3)
        [(0, ⟨1, 2, 3, 7⟩), (1, ⟨4, 5, 6, 7⟩), (0, ⟨8, 9, 10, 7⟩)]) 0).ctr.epLen =
      (shardSeq [(0, ⟨1, 2, 3, 7⟩), (1, ⟨4, 5, 6, 7⟩), (0, ⟨8, 9, 10, 7⟩)] 0).length ∧
    (kbShardAt (kbAddFlat (kbInit 2 3)
        [(0, ⟨1, 2, 3, 7⟩), (1, ⟨4, 5, 6, 7⟩), (0, ⟨8, 9, 10, 7⟩)]) 0).ctr.idx =
      (shardSeq [(0, ⟨1, 2, 3, 7⟩), (1, ⟨4, 5, 6, 7⟩), (0, ⟨8, 9, 10, 7⟩)] 0).length % 3 ∧
    (∀ e ret, kbAddRet (kbAddFlat (kbInit 2 3)
        [(0, ⟨1, 2, 3, 7⟩), (1, ⟨4, 5, 6, 7⟩), (0, ⟨8, 9, 10, 7⟩)]) (0, e) = some ret →
      ret.epIdx = 0 ∧
      ret.epLen = (shardSeq [(0, ⟨1, 2, 3, 7⟩), (1, ⟨4, 5, 6, 7⟩), (0, ⟨8, 9, 10, 7⟩)] 0).length + 1 ∧
      ret.ptr = (shardSeq [(0, ⟨1, 2, 3, 7⟩), (1, ⟨4, 5, 6, 7⟩), (0, ⟨8, 9, 10, 7⟩)] 0).length % 3) :=
  C10_done_forced_false 2 3
    [(0, ⟨1, 2, 3, 7⟩), (1, ⟨4, 5, 6, 7⟩), (0, ⟨8, 9, 10, 7⟩)]
    (by decide) 0 (by decide)

/-- Reading a mapped range inside its bound. -/
theorem getD_map_range {α : Type} (len b : Nat) (f : Nat → α) (d : α)
    (h : b < len) : ((List.range len).map f).getD b d = f b := by
  have h1 : (List.range len)[b]? = some b := List.getElem?_range h
  simp [List.getD, List.get?_eq_getElem?, List.getElem?_map, h1]

/-- C6: for every trajectory identifier observed in at least one shard,
`get_trajectory` returns a list with one entry per shard, whose entry for a
shard is `None` exactly when the history never wrote that identifier into
that shard, and otherwise is that shard's batch sliced from the recorded
first global index to the recorded last one inclusive (both translated by
the shard's offset `b * cap`). -/
theorem C6_get_trajectory (n cap : Nat) (hist : List (Nat × KBEntry))
    (hvalid : ∀ p ∈ hist, p.1 < n) (tid : Nat)
    (hobs : ∃ p ∈ hist, p.2.trajId = tid) :
    ∃ lst, getTrajectory (kbAddFlat (kbInit n cap) hist) tid = some lst ∧
      lst.length = n ∧
      ∀ b, b < n →
        (lst.getD b none = none ↔ trajWriteIdxs cap hist tid b = []) ∧
        (∀ f l, metaLookup (kbAddFlat (kbInit n cap) hist) tid b = some (f, l) →
          lst.getD b none = some (kbShardSlice
            (kbShardAt (kbAddFlat (kbInit n cap) hist) b)
            (f - b * cap) (l - b * cap + 1))) := by
  have inv := kb_invariant n cap hist hvalid
  rcases hl : (kbAddFlat (kbInit n cap) hist).trajMeta.lookup tid with _ | row
  · exfalso
    obtain ⟨p, hp, hpt⟩ := hobs
    exact (inv.unseen tid).mp hl p hp hpt
  · have hval : getTrajectory (kbAddFlat (kbInit n cap) hist) tid =
        some ((List.range (kbAddFlat (kbInit n cap) hist).shards.length).map
          (fun b => match row.getD b none with
            | none => none
            | some fl =>
              match (kbAddFlat (kbInit n cap) hist).shards.get? b with
              | none => none
              | some sh => some (kbShardSlice sh
                  (fl.1 - kbOffset (kbAddFlat (kbInit n cap) hist) b)
                  (fl.2 - kbOffset (kbAddFlat (kbInit n cap) hist) b + 1)))) := by
      simp only [getTrajectory, hl]
    refine ⟨_, hval, ?_, ?_⟩
    · simp [inv.len]
    · intro b hb
      have hblen : b < (kbAddFlat (kbInit n cap) hist).shards.length := by
        rw [inv.len]; exact hb
      have hgetb := getD_map_range (kbAddFlat (kbInit n cap) hist).shards.length
        b (fun b => match row.getD b none with
          | none => none
          | some fl =>
            match (kbAddFlat (kbInit n cap) hist).shards.get? b with
            | none => none
            | some sh => some (kbShardSlice sh
                (fl.1 - kbOffset (kbAddFlat (kbInit n cap) hist) b)
                (fl.2 - kbOffset (kbAddFlat (kbInit n cap) hist) b + 1)))
        none hblen
      have hml : metaLookup (kbAddFlat (kbInit n cap) hist) tid b =
          row.getD b none := by
        simp [metaLookup, hl]
      have hw := inv.meta tid b hb
      have hoff : kbOffset (kbAddFlat (kbInit n cap) hist) b = b * cap :=
        kbOffset_eq _ cap b inv.caps (le_of_lt hblen)
      have hshget : (kbAddFlat (kbInit n cap) hist).shards.get? b =
          some (kbShardAt (kbAddFlat (kbInit n cap) hist) b) := by
        rw [kbShardAt_eq_get _ b hblen]
        exact List.get?_eq_get hblen
      rcases hfl : row.getD b none with _ | fl
      · have hws : trajWriteIdxs cap hist tid b = [] := by
          rw [hml, hfl] at hw
          exact boundsOf_eq_none.mp hw.symm
        rw [hgetb]
        constructor
        · simp only [hfl]
          exact iff_of_true trivial hws
        · intro f l hsome
          rw [hml, hfl] at hsome
          exact absurd hsome (by simp)
      · have hwsne : trajWriteIdxs cap hist tid b ≠ [] := by
          intro hws
          rw [hml, hfl] at hw
          rw [hws] at hw
          exact absurd hw.symm (by simp [boundsOf])
        rw [hgetb]
        constructor
        · simp only [hfl, hshget]
          exact iff_of_false (by simp) hwsne
        · intro f l hsome
          rw [hml, hfl] at hsome
          have hfl2 : fl = (f, l) := Option.some.inj hsome
          simp only [hfl, hshget, hfl2, hoff]

/-- Witness for C6 on a concrete 3-shard knowledge base whose trajectory 7
was written only into shard 1. -/
theorem C6_get_trajectory_witness :
    ∃ lst, getTrajectory (kbAddFlat (kbInit 3 4)
        [(1, ⟨1, 2, 3, 7⟩), (1, ⟨4, 5, 6, 7⟩)]) 7 = some lst ∧
      lst.length = 3 ∧
      ∀ b, b < 3 →
        (lst.getD b none = none ↔
          trajWriteIdxs 4 [(1, ⟨1, 2, 3, 7⟩), (1, ⟨4, 5, 6, 7⟩)] 7 b = []) ∧
        (∀ f l, metaLookup (kbAddFlat (kbInit 3 4)
            [(1, ⟨1, 2, 3, 7⟩), (1, ⟨4, 5, 6, 7⟩)]) 7 b = some (f, l) →
          lst.getD b none = some (kbShardSlice
            (kbShardAt (kbAddFlat (kbInit 3 4)
              [(1, ⟨1, 2, 3, 7⟩), (1, ⟨4, 5, 6, 7⟩)]) b)
            (f - b * 4) (l - b * 4 + 1))) :=
  C6_get_trajectory 3 4 [(1, ⟨1, 2, 3, 7⟩), (1, ⟨4, 5, 6, 7⟩)]
    (by decide) 7 (by decide)

end Alan
